import Mathlib

/-!
A shallow embedding of `osmem.c`.

The allocator keeps two intrusive doubly linked lists of `struct block_meta`
headers (one threaded through the program-break heap, one through anonymous
mappings) and manipulates them through raw pointers.  The embedding keeps that
level of detail:

* addresses and machine words are natural numbers; `size_t` arithmetic is
  reduced modulo `2^64` (`add64`, `sub64`, `mul64`), pointer arithmetic is not
  wrapped;
* memory is a finite store of cells, a cell that was never stored reads `0`;
  a cell holds the value last stored at that address, and `memset`, `memcpy`
  and the zero fill of a fresh mapping act on every address of their range;
* every C statement that stores to a header field is one `write`;
* the three `while` loops take a fuel argument, and running out of fuel is the
  result `none` (the C loop would still be running);
* `sbrk` always succeeds; the address (or `MAP_FAILED`) that `mmap` returns is
  an argument of every entry point that may call it; `munmap` only removes the
  mapping from the list of live mappings;
* loads and stores are not checked, every address has a cell. What `os_malloc`
  does with a failed `mmap` is therefore read off a second embedding of
  `os_malloc`, the functions named `_checked`: the same statements, where a
  load or store of a word that does not lie inside the 64-bit address space
  traps and ends the call. A store through `MAP_FAILED` is such an access.

Header fields are 8 byte aligned whenever the initial break and the mappings
are, and every length the allocator passes to `memset` and `memcpy` is then a
multiple of 8, so a cell stands for one aligned machine word.
-/

namespace OsMem

/-! ## Machine words -/

/-- The number of values of a 64-bit `size_t`. -/
def W : Nat := 18446744073709551616

/-- Addition of `size_t` values. -/
def add64 (a b : Nat) : Nat := (a + b) % W

/-- Subtraction of `size_t` values (wraps when `a < b`). -/
def sub64 (a b : Nat) : Nat := if b ≤ a then a - b else W - (b - a)

/-- Multiplication of `size_t` values. -/
def mul64 (a b : Nat) : Nat := (a * b) % W

/-- The macro `MMAP_THRESHOLD`. -/
def MMAP_THRESHOLD : Nat := 128 * 1024

/-- The macro `PAGE_SIZE`. -/
def PAGE_SIZE : Nat := 4 * 1024

/-- The macro `ALIGNMENT`. -/
def ALIGNMENT : Nat := 8

/-- The macro `ALIGN(size)`, `(size + 7) & ~7` on a 64-bit word. -/
def ALIGN (size : Nat) : Nat := add64 size (ALIGNMENT - 1) / ALIGNMENT * ALIGNMENT

/-- The value `(void *)-1` that `mmap` returns on failure. -/
def MAP_FAILED : Nat := W - 1

/-- Modelled from the spec: `block_meta.h` is not among the sources.  The header
has the fields `size`, `status`, `prev`, `next`; with an 8 byte `size_t`, a 4
byte `int` padded to 8 and two 8 byte pointers `sizeof(struct block_meta)` is
32, which is the "header size" of the spec (the 40 byte split remainder is a
header plus 8 bytes of payload). -/
def META_SIZE : Nat := 32

/-- Modelled from the spec: offset of the field `size` in `struct block_meta`. -/
def OFF_SIZE : Nat := 0

/-- Modelled from the spec: offset of the field `status` in `struct block_meta`. -/
def OFF_STATUS : Nat := 8

/-- Modelled from the spec: offset of the field `prev` in `struct block_meta`. -/
def OFF_PREV : Nat := 16

/-- Modelled from the spec: offset of the field `next` in `struct block_meta`. -/
def OFF_NEXT : Nat := 24

/-! ## Memory -/

/-- A finite store: the cells that hold a non-default value, most recent first. -/
abbrev Mem := List (Nat × Nat)

/-- The value of the cell at address `a`; `0` when it was never stored. -/
def Mem.read : Mem → Nat → Nat
  | [], _ => 0
  | (k, v) :: t, a => if k = a then v else Mem.read t a

/-- Store `v` at address `a`. -/
def Mem.write (m : Mem) (a v : Nat) : Mem :=
  (a, v) :: m.filter (fun kv => decide (kv.1 ≠ a))

/-- Set the `n` cells from `lo` on to zero. -/
def Mem.zero (m : Mem) (lo n : Nat) : Mem :=
  m.filter (fun kv => decide (¬ (lo ≤ kv.1 ∧ kv.1 < lo + n)))

/-- Copy the `n` cells from `src` on to the `n` cells from `dst` on. -/
def Mem.copy (m : Mem) (dst src n : Nat) : Mem :=
  (m.filter (fun kv => decide (src ≤ kv.1 ∧ kv.1 < src + n))).map
      (fun kv => (kv.1 - src + dst, kv.2))
    ++ m.filter (fun kv => decide (¬ (dst ≤ kv.1 ∧ kv.1 < dst + n)))

/-! ## Allocator state -/

/-- The globals `brk_head` and `map_head`, the memory they point into, and the
part of the operating system state the allocator moves: the program break and
the live anonymous mappings (base, length). -/
structure State where
  mem : Mem
  brk_head : Nat
  map_head : Nat
  brk : Nat
  maps : List (Nat × Nat)
  deriving DecidableEq

namespace State

/-- The field `b->size`. -/
def size (s : State) (b : Nat) : Nat := s.mem.read (b + OFF_SIZE)

/-- The field `b->status`. -/
def status (s : State) (b : Nat) : Nat := s.mem.read (b + OFF_STATUS)

/-- The field `b->prev`. -/
def prev (s : State) (b : Nat) : Nat := s.mem.read (b + OFF_PREV)

/-- The field `b->next`. -/
def next (s : State) (b : Nat) : Nat := s.mem.read (b + OFF_NEXT)

/-- The store `b->size = v`. -/
def setSize (s : State) (b v : Nat) : State := { s with mem := s.mem.write (b + OFF_SIZE) v }

/-- The store `b->status = v`. -/
def setStatus (s : State) (b v : Nat) : State := { s with mem := s.mem.write (b + OFF_STATUS) v }

/-- The store `b->prev = v`. -/
def setPrev (s : State) (b v : Nat) : State := { s with mem := s.mem.write (b + OFF_PREV) v }

/-- The store `b->next = v`. -/
def setNext (s : State) (b v : Nat) : State := { s with mem := s.mem.write (b + OFF_NEXT) v }

end State

/-! ## Operating system primitives -/

/-- The call `sbrk(incr)`: the break moves by `incr` read as a signed 64-bit
value; the call always succeeds. The old break is the result. -/
def sbrk (incr : Nat) (s : State) : Nat × State :=
  (s.brk, { s with brk := if incr < W / 2 then s.brk + incr else s.brk + incr - W })

/-- The call `mmap(NULL, len, ..., MAP_PRIVATE | MAP_ANONYMOUS, -1, 0)` when the
kernel answers `res`: on success the `len` cells from `res` on are zero and the
mapping is live. -/
def mmap (res len : Nat) (s : State) : State :=
  if res = MAP_FAILED then s
  else { s with mem := s.mem.zero res len, maps := (res, len) :: s.maps }

/-- The call `munmap(addr, len)`. -/
def munmap (addr len : Nat) (s : State) : State :=
  { s with maps := s.maps.erase (addr, len) }

/-- The call `memset(p, 0, n)`. -/
def memset0 (p n : Nat) (s : State) : State := { s with mem := s.mem.zero p n }

/-- The call `memcpy(dst, src, n)`. -/
def memcpy (dst src n : Nat) (s : State) : State := { s with mem := s.mem.copy dst src n }

/-! ## The allocator -/

/-- The function `preallocate` (lines 18-34). The chained assignment
`new_meta->next = new_meta->prev = NULL` stores `NULL` in `prev`, then in `next`. -/
def preallocate (s : State) : State :=
  let top := (sbrk 0 s).1
  let s := (sbrk MMAP_THRESHOLD s).2
  let new_meta := top
  let s := s.setSize new_meta MMAP_THRESHOLD
  let s := s.setStatus new_meta 0
  let s := s.setPrev new_meta 0
  let s := s.setNext new_meta 0
  { s with brk_head := new_meta }

/-- The loop of `find_best_fit` (lines 41-48), started at `find`. -/
def find_best_fit_from (s : State) (size : Nat) : Nat → Nat → Option Nat
  | 0, _ => none
  | fuel + 1, find =>
    if find = 0 then some 0
    else if s.size find ≥ size ∧ s.status find = 0 then some find
    else find_best_fit_from s size fuel (s.next find)

/-- The function `find_best_fit` (lines 36-49); the result `some 0` is `NULL`. -/
def find_best_fit (fuel size : Nat) (s : State) : Option Nat :=
  find_best_fit_from s size fuel s.brk_head

/-- The loop `while (last->next != NULL) last = last->next;` (lines 86-87,
108-109, 213-214, 235-236). -/
def last_from (s : State) : Nat → Nat → Option Nat
  | 0, _ => none
  | fuel + 1, last =>
    if s.next last ≠ 0 then last_from s fuel (s.next last) else some last

/-- The function `coalesce_blocks` (lines 51-59). -/
def coalesce_blocks (block : Nat) (s : State) : State :=
  let s := s.setSize block (add64 (s.size block) (s.size (s.next block)))
  let s := s.setNext block (s.next (s.next block))
  if s.next block ≠ 0 then s.setPrev (s.next block) block else s

/-- The mapped path of `os_malloc` (lines 74-92), which `os_calloc` repeats
(lines 203-219): `res` is what `mmap` returns; the result is the block `ptr`. -/
def map_block (fuel res new_size : Nat) (s : State) : Option (Nat × State) :=
  let ptr := res
  let s := mmap res new_size s
  let s := s.setSize ptr new_size
  let s := s.setStatus ptr 2
  if s.map_head = 0 then
    let s := { s with map_head := ptr }
    let s := s.setNext ptr 0
    let s := s.setPrev ptr 0
    some (ptr, s)
  else
    match last_from s fuel s.map_head with
    | none => none
    | some last =>
      let s := s.setNext last ptr
      let s := s.setNext ptr 0
      let s := s.setPrev ptr last
      some (ptr, s)

/-- The heap path of `os_malloc` (lines 98-146), which `os_calloc` repeats
(lines 226-272); the result is the block `best`. -/
def heap_block (fuel new_size : Nat) (s : State) : Option (Nat × State) :=
  let s := if s.brk_head = 0 then preallocate s else s
  match find_best_fit fuel new_size s with
  | none => none
  | some best =>
    if best = 0 then
      match last_from s fuel s.brk_head with
      | none => none
      | some final =>
        let top := (sbrk 0 s).1
        if s.status final = 0 then
          let sign := if new_size > s.size final then sub64 new_size (s.size final)
            else sub64 (s.size final) new_size
          let s := (sbrk sign s).2
          let s := s.setSize final new_size
          some (final, s)
        else
          let s := (sbrk new_size s).2
          let best := top
          let s := s.setSize best new_size
          let s := s.setStatus best 1
          let s := s.setPrev best final
          let s := s.setNext final best
          some (best, s)
    else
      let s := s.setStatus best 1
      if sub64 (s.size best) new_size ≥ 40 then
        let new_meta := best + new_size
        let s := s.setSize new_meta (sub64 (s.size best) new_size)
        let s := s.setSize best new_size
        let s := s.setStatus new_meta 0
        let s := s.setNext new_meta (s.next best)
        let s := s.setNext best new_meta
        let s := s.setPrev new_meta best
        some (best, s)
      else some (best, s)

/-- The function `os_malloc` (lines 61-152); the pointer `0` is `NULL`. -/
def os_malloc (fuel res size : Nat) (s : State) : Option (Nat × State) :=
  if size = 0 then some (0, s)
  else
    let new_size := ALIGN (add64 size META_SIZE)
    if size ≥ MMAP_THRESHOLD then
      match map_block fuel res new_size s with
      | none => none
      | some (ptr, s) => some (ptr + META_SIZE, s)
    else
      match heap_block fuel new_size s with
      | none => none
      | some (best, s) => some (best + META_SIZE, s)

/-- The function `os_free` (lines 154-190). -/
def os_free (ptr : Nat) (s : State) : State :=
  if ptr = 0 then s
  else
    let node := ptr - META_SIZE
    if s.size node = 0 then s
    else
      let s :=
        if s.status node = 1 then
          let s := s.setStatus node 0
          let s := if s.next node ≠ 0 ∧ s.status (s.next node) = 0
            then coalesce_blocks node s else s
          if s.prev node ≠ 0 ∧ s.status (s.prev node) = 0
            then coalesce_blocks (s.prev node) s else s
        else s
      if s.status node = 2 then
        let s := if s.next node ≠ 0 then s.setPrev (s.next node) (s.prev node) else s
        let s := if s.prev node ≠ 0 then s.setNext (s.prev node) (s.next node)
          else { s with map_head := s.next node }
        munmap node (s.size node) s
      else s

/-- The function `os_calloc` (lines 192-276). -/
def os_calloc (fuel res nmemb size : Nat) (s : State) : Option (Nat × State) :=
  if mul64 size nmemb = 0 then some (0, s)
  else
    let new_size := ALIGN (add64 (mul64 size nmemb) META_SIZE)
    if new_size ≥ PAGE_SIZE then
      match map_block fuel res new_size s with
      | none => none
      | some (ptr, s) =>
        let s := memset0 (ptr + META_SIZE) (sub64 (s.size ptr) META_SIZE) s
        some (ptr + META_SIZE, s)
    else
      match heap_block fuel new_size s with
      | none => none
      | some (best, s) =>
        let s := memset0 (best + META_SIZE) (sub64 (s.size best) META_SIZE) s
        some (best + META_SIZE, s)

/-- The function `os_realloc` (lines 278-373). -/
def os_realloc (fuel res ptr size : Nat) (s : State) : Option (Nat × State) :=
  if ptr = 0 then os_malloc fuel res size s
  else
    let block := ptr - META_SIZE
    if s.status block = 0 then some (0, s)
    else if size = 0 then some (0, os_free ptr s)
    else
      let new_size := ALIGN (add64 size META_SIZE)
      if s.status block = 1 then
        if new_size ≥ MMAP_THRESHOLD then
          match os_malloc fuel res new_size s with
          | none => none
          | some (new_block, s) =>
            let min_size := if s.size block < new_size then s.size block else new_size
            let s := memcpy new_block ptr (sub64 min_size META_SIZE) s
            let s := os_free ptr s
            some (new_block, s)
        else if s.size block > new_size then
          if sub64 (s.size block) new_size > 40 then
            let new_meta := block + new_size
            let s := s.setSize new_meta (sub64 (s.size block) new_size)
            let s := s.setSize block new_size
            let s := s.setStatus new_meta 0
            let s := s.setNext new_meta (s.next block)
            let s := s.setNext block new_meta
            let s := s.setPrev new_meta block
            some (block + META_SIZE, s)
          else some (block + META_SIZE, s)
        else if s.size block < new_size then
          if s.next block ≠ 0 ∧ s.status (s.next block) = 0 then
            some (block + META_SIZE, coalesce_blocks block s)
          else if s.next block = 0 then
            let s := (sbrk (sub64 new_size (s.size block)) s).2
            let s := s.setSize block new_size
            some (block + META_SIZE, s)
          else
            match os_malloc fuel res size s with
            | none => none
            | some (new_block, s) =>
              let min_size := if s.size block < new_size then s.size block else new_size
              let s := memcpy new_block ptr min_size s
              let s := os_free ptr s
              some (new_block, s)
        else some (block + META_SIZE, s)
      else if s.status block = 2 then
        match os_malloc fuel res size s with
        | none => none
        | some (new_block, s) =>
          let min_size := if s.size block < new_size then s.size block else new_size
          let s := memcpy new_block ptr min_size s
          let s := os_free ptr s
          some (new_block, s)
      else some (0, s)


/-! ## Use of the allocator by a client -/

/-- A call of one of the four entry points.  `fuel` bounds the loops of the
call and `res` is the address at which the kernel places the mapping if the
call asks for one. -/
inductive Op where
  | malloc (fuel res size : Nat)
  | calloc (fuel res nmemb size : Nat)
  | free (ptr : Nat)
  | realloc (fuel res ptr size : Nat)
  deriving DecidableEq

/-- An allocator state together with the payload pointers the client holds:
those returned to it and not yet released. -/
structure Config where
  st : State
  live : List Nat
  deriving DecidableEq

/-- The empty allocator: both lists empty, nothing stored, nothing mapped, the
break at `brk0`. -/
def emptyState (brk0 : Nat) : State :=
  { mem := [], brk_head := 0, map_head := 0, brk := brk0, maps := [] }

/-- Two address ranges (base, length) do not overlap. -/
def disjointMaps (a b : Nat × Nat) : Prop := a.1 + a.2 ≤ b.1 ∨ b.1 + b.2 ≤ a.1

instance : DecidableRel disjointMaps := fun a b =>
  inferInstanceAs (Decidable (a.1 + a.2 ≤ b.1 ∨ b.1 + b.2 ≤ a.1))

/-- What the kernel guarantees about the regions it handed out: every mapping
is page aligned, lies above the break and inside the address space, and no
two mappings overlap. -/
def osOk (s : State) : Prop :=
  (∀ m ∈ s.maps, m.1 % PAGE_SIZE = 0 ∧ s.brk ≤ m.1 ∧ m.1 + m.2 ≤ W) ∧
    s.maps.Pairwise disjointMaps

instance (s : State) : Decidable (osOk s) :=
  inferInstanceAs (Decidable
    ((∀ m ∈ s.maps, m.1 % PAGE_SIZE = 0 ∧ s.brk ≤ m.1 ∧ m.1 + m.2 ≤ W) ∧
      s.maps.Pairwise disjointMaps))

/-- The pointers the client holds after a call that returned `q`. -/
def liveAfter (live : List Nat) (q : Nat) : List Nat :=
  if q = 0 then live else q :: live

/-- One call by a client that respects the interface: sizes are `size_t`
values, the pointer passed to `os_free` and `os_realloc` is `NULL` or a pointer
the client holds, and the kernel succeeds and hands out fresh regions. The
result is `none` when the call is not of this kind or does not return within
its fuel. -/
def step (op : Op) (c : Config) : Option Config :=
  match op with
  | Op.malloc fuel res size =>
    if size < W ∧ res ≠ MAP_FAILED then
      match os_malloc fuel res size c.st with
      | some (q, s) => if osOk s then some ⟨s, liveAfter c.live q⟩ else none
      | none => none
    else none
  | Op.calloc fuel res nmemb size =>
    if nmemb < W ∧ size < W ∧ res ≠ MAP_FAILED then
      match os_calloc fuel res nmemb size c.st with
      | some (q, s) => if osOk s then some ⟨s, liveAfter c.live q⟩ else none
      | none => none
    else none
  | Op.free ptr =>
    if ptr = 0 ∨ ptr ∈ c.live then some ⟨os_free ptr c.st, c.live.erase ptr⟩ else none
  | Op.realloc fuel res ptr size =>
    if size < W ∧ res ≠ MAP_FAILED ∧ (ptr = 0 ∨ ptr ∈ c.live) then
      match os_realloc fuel res ptr size c.st with
      | some (q, s) =>
        if osOk s then
          some ⟨s, if q = ptr then c.live else liveAfter (c.live.erase ptr) q⟩
        else none
      | none => none
    else none

/-- Run a sequence of calls. -/
def run : List Op → Config → Option Config
  | [], c => some c
  | op :: ops, c =>
    match step op c with
    | some c1 => run ops c1
    | none => none

/-- The states a client can bring the allocator to from the empty allocator
(with a page aligned, non-null initial break) by calls of `os_malloc`,
`os_calloc`, `os_free` and `os_realloc`. -/
inductive Reachable : Config → Prop where
  | init (brk0 : Nat) (h0 : 0 < brk0) (ha : brk0 % PAGE_SIZE = 0) (hw : brk0 < W) :
      Reachable ⟨emptyState brk0, []⟩
  | step (op : Op) (c c1 : Config) (hc : Reachable c) (hs : step op c = some c1) :
      Reachable c1

/-! ## Well-formed lists -/

/-- The blocks met from `p` along the `next` fields, up to `NULL`, are exactly
`l`, none of them is `NULL`, the `prev` field of the first one is `q` and the
`prev` field of every other one is the block before it. With `q = 0` and `p`
a list head this is a well-linked doubly linked list. -/
def Linked (s : State) : Nat → Nat → List Nat → Prop
  | _, p, [] => p = 0
  | q, p, b :: l => p = b ∧ b ≠ 0 ∧ s.prev b = q ∧ Linked s b (s.next b) l

instance decLinked (s : State) : (q p : Nat) → (l : List Nat) → Decidable (Linked s q p l)
  | _, p, [] => inferInstanceAs (Decidable (p = 0))
  | q, p, b :: l =>
    have := decLinked s b (s.next b) l
    inferInstanceAs (Decidable (p = b ∧ b ≠ 0 ∧ s.prev b = q ∧ Linked s b (s.next b) l))

/-- The headers of two blocks do not overlap. -/
def apart (a b : Nat) : Prop := a + META_SIZE ≤ b ∨ b + META_SIZE ≤ a

instance : DecidableRel apart := fun a b =>
  inferInstanceAs (Decidable (a + META_SIZE ≤ b ∨ b + META_SIZE ≤ a))

/-- No two headers of the blocks of `l` overlap. -/
def Sep (l : List Nat) : Prop := l.Pairwise apart

instance (l : List Nat) : Decidable (Sep l) :=
  inferInstanceAs (Decidable (l.Pairwise apart))

/-- The words of the spec: `align8`, rounding up to the next multiple of 8,
on unbounded numbers. -/
def align8 (n : Nat) : Nat := (n + 7) / 8 * 8

/-! ## Concrete client sessions -/

/-- The empty allocator with the break at `0x100000`. -/
def startConfig : Config := ⟨emptyState 1048576, []⟩

/-- Three small blocks are allocated, the first two are released (and merge),
the merged block is allocated whole and resized to 200000 bytes (which moves
it to a mapping and copies its payload, the stale header of the second block
included), the merged block is allocated again, and the mapped block is
resized to 8 bytes. -/
def cycleSession : List Op :=
  [Op.malloc 10 0 8, Op.malloc 10 0 8, Op.malloc 10 0 8, Op.free 1048608, Op.free 1048648,
   Op.malloc 10 0 48, Op.realloc 10 1073741824 1048608 200000, Op.malloc 10 0 48,
   Op.realloc 10 2147483648 1073741856 8]

/-- The configuration after `cycleSession`: the heap list is
`1048576 → 1048656 → 1048696 → 1048736 → 1048656 → ...`. -/
def cycleConfig : Config :=
  { st :=
      { mem := [(1048744, 0), (1048760, 1048656), (1048736, 40), (1048752, 1048576),
          (1048720, 1048736), (1048696, 40), (1048704, 1), (1048584, 1), (1073741872, 0),
          (1073741888, 1048656), (1073741864, 40), (1073741880, 1048576), (1073741840, 0),
          (1073741848, 0), (1073741832, 2), (1073741824, 200064), (1048672, 1048576),
          (1048600, 1048656), (1048576, 80), (1048624, 0), (1048712, 1048656),
          (1048680, 1048696), (1048656, 40), (1048664, 1), (1048640, 1048656), (1048616, 40),
          (1048632, 1048576), (1048592, 0)],
        brk_head := 1048576,
        map_head := 0,
        brk := 1179648,
        maps := [] },
    live := [1048728, 1048608, 1048688] }

/-- Three 8 byte blocks are allocated and the middle one is released. -/
def growSession : List Op :=
  [Op.malloc 10 0 8, Op.malloc 10 0 8, Op.malloc 10 0 8, Op.free 1048648]

/-- The configuration after `growSession`: blocks of 40 bytes at `1048576`
(allocated), `1048616` (free) and `1048656` (allocated), then the free rest. -/
def growConfig : Config :=
  { st :=
      { mem := [(1048624, 0), (1048712, 1048656), (1048680, 1048696), (1048720, 0),
          (1048704, 0), (1048656, 40), (1048696, 130952), (1048664, 1), (1048672, 1048616),
          (1048640, 1048656), (1048616, 40), (1048632, 1048576), (1048600, 1048616),
          (1048576, 40), (1048584, 1), (1048592, 0)],
        brk_head := 1048576,
        map_head := 0,
        brk := 1179648,
        maps := [] },
    live := [1048688, 1048608] }

/-- Blocks of 72, 8 and 130896 bytes fill the preallocated heap; the first is
released, 32 bytes are allocated from it (a split that leaves a 40 byte free
block) and 8 bytes are allocated from the remainder. -/
def splitSession : List Op :=
  [Op.malloc 10 0 72, Op.malloc 10 0 8, Op.malloc 10 0 130896, Op.free 1048608,
   Op.malloc 10 0 32, Op.malloc 10 0 8]

/-- The configuration after `splitSession`: allocated blocks at `1048576`
(64 bytes), `1048640` (40 bytes), `1048680` (40 bytes) and `1048720`
(130928 bytes); the `prev` field of the block at `1048680` still names
`1048576`. -/
def splitConfig : Config :=
  { st :=
      { mem := [(1048648, 1), (1048656, 1048576), (1048600, 1048640), (1048664, 1048680),
          (1048576, 64), (1048640, 40), (1048584, 1), (1048728, 1), (1048736, 1048680),
          (1048704, 1048720), (1048744, 0), (1048680, 40), (1048720, 130928), (1048688, 1),
          (1048696, 1048576), (1048592, 0)],
        brk_head := 1048576,
        map_head := 0,
        brk := 1179648,
        maps := [] },
    live := [1048672, 1048608, 1048752, 1048712] }

/-- The state after `os_malloc(200000)` on the empty allocator, with the
mapping placed at `0x40000000`. -/
def oneMapState : State :=
  { mem := [(1073741840, 0), (1073741848, 0), (1073741832, 2), (1073741824, 200032)],
    brk_head := 0,
    map_head := 1073741824,
    brk := 1048576,
    maps := [(1073741824, 200032)] }

/-- The state after `os_malloc(200000)`, `os_malloc(200000)` and
`os_malloc(300000)` on the empty allocator, with the mappings placed at
`0x40000000`, `0x80000000` and `0xc0000000`. -/
def threeMapState : State :=
  { mem := [(3221225488, 2147483648), (3221225496, 0), (2147483672, 3221225472),
      (3221225480, 2), (3221225472, 300032), (2147483664, 1073741824),
      (1073741848, 2147483648), (2147483656, 2), (2147483648, 200032), (1073741840, 0),
      (1073741832, 2), (1073741824, 200032)],
    brk_head := 0,
    map_head := 1073741824,
    brk := 1048576,
    maps := [(3221225472, 300032), (2147483648, 200032), (1073741824, 200032)] }

/-! ## Forward lists and free neighbours -/

/-- The blocks met from `p` along the `next` fields, up to `NULL`, are exactly
`l`, and none of them is `NULL`: `l` is the forward traversal from `p`. -/
def Chain (s : State) : Nat → List Nat → Prop
  | p, [] => p = 0
  | p, b :: l => p = b ∧ b ≠ 0 ∧ Chain s (s.next b) l

instance decChain (s : State) : (p : Nat) → (l : List Nat) → Decidable (Chain s p l)
  | p, [] => inferInstanceAs (Decidable (p = 0))
  | p, b :: l =>
    have := decChain s (s.next b) l
    inferInstanceAs (Decidable (p = b ∧ b ≠ 0 ∧ Chain s (s.next b) l))

/-- The test of `find_best_fit` (line 42) on the block `b`. -/
def fits (s : State) (size b : Nat) : Prop := s.size b ≥ size ∧ s.status b = 0

instance (s : State) (size b : Nat) : Decidable (fits s size b) :=
  inferInstanceAs (Decidable (s.size b ≥ size ∧ s.status b = 0))

/-- No two consecutive entries of a list of status values are both `0` (FREE). -/
def noAdjZero : List Nat → Prop
  | [] => True
  | [_] => True
  | a :: b :: l => ¬ (a = 0 ∧ b = 0) ∧ noAdjZero (b :: l)

instance decNoAdjZero : (l : List Nat) → Decidable (noAdjZero l)
  | [] => inferInstanceAs (Decidable True)
  | [_] => inferInstanceAs (Decidable True)
  | a :: b :: l =>
    have := decNoAdjZero (b :: l)
    inferInstanceAs (Decidable (¬ (a = 0 ∧ b = 0) ∧ noAdjZero (b :: l)))

/-- No two consecutive blocks of `l` are both FREE. -/
def NoAdjFree (s : State) (l : List Nat) : Prop := noAdjZero (l.map s.status)

instance (s : State) (l : List Nat) : Decidable (NoAdjFree s l) :=
  inferInstanceAs (Decidable (noAdjZero (l.map s.status)))

/-- The sum of the size fields of the blocks of `l`. -/
def sizeSum (s : State) (l : List Nat) : Nat := (l.map s.size).sum

/-! ## More client sessions -/

/-- The state after `os_malloc(131071)` on the empty allocator: the
preallocated block was grown by 32 bytes and its status is still `0`. -/
def grownFirstState : State :=
  { mem := [(1048576, 131104), (1048600, 0), (1048592, 0), (1048584, 0)],
    brk_head := 1048576,
    map_head := 0,
    brk := 1179680,
    maps := [] }

/-- After `splitSession` the two adjacent 40 byte blocks are released. -/
def unmergedSession : List Op := [Op.free 1048672, Op.free 1048712]

/-- The configuration after `splitSession` and `unmergedSession`: the blocks
at `1048640` and `1048680` are both FREE and follow each other in the list. -/
def unmergedConfig : Config :=
  { st :=
      { mem := [(1048688, 0), (1048648, 0), (1048656, 1048576), (1048600, 1048640),
          (1048664, 1048680), (1048576, 64), (1048640, 40), (1048584, 1), (1048728, 1),
          (1048736, 1048680), (1048704, 1048720), (1048744, 0), (1048680, 40),
          (1048720, 130928), (1048696, 1048576), (1048592, 0)],
        brk_head := 1048576,
        map_head := 0,
        brk := 1179648,
        maps := [] },
    live := [1048608, 1048752] }

/-- One request of 200000 bytes, mapped at `0x40000000`. -/
def oneMapSession : List Op := [Op.malloc 1 1073741824 200000]

/-- The configuration after `oneMapSession`; its state is `oneMapState`. -/
def oneMapConfig : Config := ⟨oneMapState, [1073741856]⟩

/-- The mapped block of `oneMapConfig` is resized to 8 bytes. -/
def overrunSession : List Op := [Op.realloc 10 0 1073741856 8]

/-- The state that `os_malloc(8)` produces inside the call of `overrunSession`,
before the copy: a 40 byte block at `1048576` followed by the free rest of
131032 bytes at `1048616`. -/
def beforeCopyState : State :=
  { mem := [(1048632, 1048576), (1048600, 1048616), (1048640, 0), (1048624, 0), (1048576, 40),
      (1048616, 131032), (1048584, 1), (1048592, 0), (1073741840, 0), (1073741848, 0),
      (1073741832, 2), (1073741824, 200032)],
    brk_head := 1048576,
    map_head := 1073741824,
    brk := 1179648,
    maps := [(1073741824, 200032)] }

/-- The configuration after `oneMapSession` and `overrunSession`: the header
at `1048616` reads zero in every field. -/
def overrunConfig : Config :=
  { st :=
      { mem := [(1048600, 1048616), (1048576, 40), (1048584, 1), (1048592, 0), (1073741840, 0),
          (1073741848, 0), (1073741832, 2), (1073741824, 200032)],
        brk_head := 1048576,
        map_head := 0,
        brk := 1179648,
        maps := [] },
    live := [1048608] }

/-- One request of 48 bytes. -/
def eightySession : List Op := [Op.malloc 10 0 48]

/-- The configuration after `eightySession`: an allocated block of 80 bytes
at `1048576`, then the free rest. -/
def eightyConfig : Config :=
  { st :=
      { mem := [(1048672, 1048576), (1048600, 1048656), (1048680, 0), (1048664, 0),
          (1048576, 80), (1048656, 130992), (1048584, 1), (1048592, 0)],
        brk_head := 1048576,
        map_head := 0,
        brk := 1179648,
        maps := [] },
    live := [1048608] }

/-! ## The words of the spec on release -/

/-- The test of line 168: the next list entry of `b` exists and is FREE. -/
def nextFree (s : State) (b : Nat) : Prop := s.next b ≠ 0 ∧ s.status (s.next b) = 0

instance (s : State) (b : Nat) : Decidable (nextFree s b) :=
  inferInstanceAs (Decidable (s.next b ≠ 0 ∧ s.status (s.next b) = 0))

/-- The test of line 172: the previous list entry of `b` exists and is FREE. -/
def prevFree (s : State) (b : Nat) : Prop := s.prev b ≠ 0 ∧ s.status (s.prev b) = 0

instance (s : State) (b : Nat) : Decidable (prevFree s b) :=
  inferInstanceAs (Decidable (s.prev b ≠ 0 ∧ s.status (s.prev b) = 0))

/-- The words of the spec: the list `l1 ++ b :: l2` after the release of `b`,
in which `b` is absorbed by its previous neighbour when that one is FREE and
absorbs its next neighbour (the first block of `l2`) when that one is FREE. -/
def mergedList (s : State) (b : Nat) (l1 l2 : List Nat) : List Nat :=
  (if prevFree s b then l1 else l1 ++ [b]) ++ (if nextFree s b then l2.tail else l2)

/-- The words of the spec: the block that holds the released bytes of `b`. -/
def mergedBlock (s : State) (b : Nat) : Nat := if prevFree s b then s.prev b else b

/-- The words of the spec: the sum of the sizes of the blocks that merge. -/
def mergedSize (s : State) (b : Nat) : Nat :=
  (if prevFree s b then s.size (s.prev b) else 0) + s.size b +
    (if nextFree s b then s.size (s.next b) else 0)

/-! ## A heap with FREE neighbours -/

/-- The state after four requests of 8 bytes on the empty allocator and the
release of the first and the third block: 40 byte blocks at `1048576` (FREE),
`1048616` (allocated), `1048656` (FREE), `1048696` (allocated), then the free
rest at `1048736`. -/
def sandwichState : State :=
  { mem := [(1048664, 0), (1048584, 0), (1048752, 1048696), (1048720, 1048736), (1048760, 0),
      (1048744, 0), (1048696, 40), (1048736, 130912), (1048704, 1), (1048712, 1048656),
      (1048680, 1048696), (1048656, 40), (1048672, 1048616), (1048640, 1048656), (1048616, 40),
      (1048624, 1), (1048632, 1048576), (1048600, 1048616), (1048576, 40), (1048592, 0)],
    brk_head := 1048576,
    map_head := 0,
    brk := 1179648,
    maps := [] }

/-! ## Calls on a machine that checks its accesses -/

/-- How a call ends on a machine that checks its accesses: it returns a value,
or the access of the word at `addr` trapped in state `s` and nothing is
returned. -/
inductive Outcome (α : Type) where
  | returned (a : α)
  | trapped (addr : Nat) (s : State)
  deriving DecidableEq

/-- A load or store of the word at `a` in state `s`, followed by `k`. The eight
bytes from `a` on must lie inside the 64-bit address space, else the access
traps. This is the one trap that is followed: it does not depend on what the
process has mapped. -/
def access {α : Type} (a : Nat) (s : State) (k : Option (Outcome α)) : Option (Outcome α) :=
  if a + 8 ≤ W then k else some (Outcome.trapped a s)

/-- Sequencing of two parts of a call: the second part runs on what the first
returned; a first part that trapped, or that is still running, ends the call. -/
def andThen {α β : Type} (r : Option (Outcome α)) (k : α → Option (Outcome β)) :
    Option (Outcome β) :=
  match r with
  | none => none
  | some (Outcome.trapped a s) => some (Outcome.trapped a s)
  | some (Outcome.returned x) => k x

/-- The function `preallocate` (lines 18-34) with every store checked. -/
def preallocate_checked (s : State) : Option (Outcome State) :=
  let top := (sbrk 0 s).1
  let s := (sbrk MMAP_THRESHOLD s).2
  let new_meta := top
  access (new_meta + OFF_SIZE) s <|
  let s := s.setSize new_meta MMAP_THRESHOLD
  access (new_meta + OFF_STATUS) s <|
  let s := s.setStatus new_meta 0
  access (new_meta + OFF_PREV) s <|
  let s := s.setPrev new_meta 0
  access (new_meta + OFF_NEXT) s <|
  let s := s.setNext new_meta 0
  some (Outcome.returned { s with brk_head := new_meta })

/-- The loop of `find_best_fit` (lines 41-48), started at `find`, with every
load checked: `find->size`, then `find->status` when the size suffices, then
`find->next` when the block does not fit. -/
def find_best_fit_from_checked (s : State) (size : Nat) : Nat → Nat → Option (Outcome Nat)
  | 0, _ => none
  | fuel + 1, find =>
    if find = 0 then some (Outcome.returned 0)
    else
      access (find + OFF_SIZE) s <|
      if s.size find ≥ size then
        access (find + OFF_STATUS) s <|
        if s.status find = 0 then some (Outcome.returned find)
        else
          access (find + OFF_NEXT) s <|
          find_best_fit_from_checked s size fuel (s.next find)
      else
        access (find + OFF_NEXT) s <|
        find_best_fit_from_checked s size fuel (s.next find)

/-- The function `find_best_fit` (lines 36-49) with every load checked. -/
def find_best_fit_checked (fuel size : Nat) (s : State) : Option (Outcome Nat) :=
  find_best_fit_from_checked s size fuel s.brk_head

/-- The loop `while (last->next != NULL) last = last->next;` (lines 86-87,
108-109) with every load of `last->next` checked. -/
def last_from_checked (s : State) : Nat → Nat → Option (Outcome Nat)
  | 0, _ => none
  | fuel + 1, last =>
    access (last + OFF_NEXT) s <|
    if s.next last ≠ 0 then last_from_checked s fuel (s.next last)
    else some (Outcome.returned last)

/-- The mapped path of `os_malloc` (lines 74-92) with every access checked:
`res` is what `mmap` returns and no statement tests it; the first access is the
store `ptr->size = new_size` of line 75. -/
def map_block_checked (fuel res new_size : Nat) (s : State) : Option (Outcome (Nat × State)) :=
  let ptr := res
  let s := mmap res new_size s
  access (ptr + OFF_SIZE) s <|
  let s := s.setSize ptr new_size
  access (ptr + OFF_STATUS) s <|
  let s := s.setStatus ptr 2
  if s.map_head = 0 then
    let s := { s with map_head := ptr }
    access (ptr + OFF_NEXT) s <|
    let s := s.setNext ptr 0
    access (ptr + OFF_PREV) s <|
    let s := s.setPrev ptr 0
    some (Outcome.returned (ptr, s))
  else
    andThen (last_from_checked s fuel s.map_head) fun last =>
    access (last + OFF_NEXT) s <|
    let s := s.setNext last ptr
    access (ptr + OFF_NEXT) s <|
    let s := s.setNext ptr 0
    access (ptr + OFF_PREV) s <|
    let s := s.setPrev ptr last
    some (Outcome.returned (ptr, s))

/-- The heap path of `os_malloc` (lines 98-146) with every access checked. -/
def heap_block_checked (fuel new_size : Nat) (s : State) : Option (Outcome (Nat × State)) :=
  andThen (if s.brk_head = 0 then preallocate_checked s else some (Outcome.returned s)) fun s =>
  andThen (find_best_fit_checked fuel new_size s) fun best =>
  if best = 0 then
    andThen (last_from_checked s fuel s.brk_head) fun final =>
    let top := (sbrk 0 s).1
    access (final + OFF_STATUS) s <|
    if s.status final = 0 then
      access (final + OFF_SIZE) s <|
      let sign := if new_size > s.size final then sub64 new_size (s.size final)
        else sub64 (s.size final) new_size
      let s := (sbrk sign s).2
      access (final + OFF_SIZE) s <|
      let s := s.setSize final new_size
      some (Outcome.returned (final, s))
    else
      let s := (sbrk new_size s).2
      let best := top
      access (best + OFF_SIZE) s <|
      let s := s.setSize best new_size
      access (best + OFF_STATUS) s <|
      let s := s.setStatus best 1
      access (best + OFF_PREV) s <|
      let s := s.setPrev best final
      access (final + OFF_NEXT) s <|
      let s := s.setNext final best
      some (Outcome.returned (best, s))
  else
    access (best + OFF_STATUS) s <|
    let s := s.setStatus best 1
    access (best + OFF_SIZE) s <|
    if sub64 (s.size best) new_size ≥ 40 then
      let new_meta := best + new_size
      access (best + OFF_SIZE) s <|
      access (new_meta + OFF_SIZE) s <|
      let s := s.setSize new_meta (sub64 (s.size best) new_size)
      access (best + OFF_SIZE) s <|
      let s := s.setSize best new_size
      access (new_meta + OFF_STATUS) s <|
      let s := s.setStatus new_meta 0
      access (best + OFF_NEXT) s <|
      access (new_meta + OFF_NEXT) s <|
      let s := s.setNext new_meta (s.next best)
      access (best + OFF_NEXT) s <|
      let s := s.setNext best new_meta
      access (new_meta + OFF_PREV) s <|
      let s := s.setPrev new_meta best
      some (Outcome.returned (best, s))
    else some (Outcome.returned (best, s))

/-- The function `os_malloc` (lines 61-152) with every access checked; the
pointer `0` is `NULL`. -/
def os_malloc_checked (fuel res size : Nat) (s : State) : Option (Outcome (Nat × State)) :=
  if size = 0 then some (Outcome.returned (0, s))
  else
    let new_size := ALIGN (add64 size META_SIZE)
    if size ≥ MMAP_THRESHOLD then
      andThen (map_block_checked fuel res new_size s) fun r =>
      some (Outcome.returned (r.1 + META_SIZE, r.2))
    else
      andThen (heap_block_checked fuel new_size s) fun r =>
      some (Outcome.returned (r.1 + META_SIZE, r.2))

/-! ## Memory lemmas -/

theorem Mem.read_nil (a : Nat) : Mem.read [] a = 0 := rfl

theorem Mem.read_cons (k v : Nat) (t : Mem) (a : Nat) :
    Mem.read ((k, v) :: t) a = if k = a then v else Mem.read t a := rfl

theorem Mem.filter_cons_pos (p : Nat × Nat → Bool) (a : Nat × Nat) (l : Mem)
    (h : p a = true) : List.filter p (a :: l) = a :: List.filter p l := by
  simp [List.filter_cons, h]

theorem Mem.filter_cons_neg (p : Nat × Nat → Bool) (a : Nat × Nat) (l : Mem)
    (h : ¬ p a = true) : List.filter p (a :: l) = List.filter p l := by
  simp [List.filter_cons, h]

/-- Filtering keeps a cell whose address passes the filter. -/
theorem Mem.read_filter_keep (p : Nat × Nat → Bool) (m : Mem) (a : Nat)
    (h : ∀ v, p (a, v) = true) : Mem.read (m.filter p) a = Mem.read m a := by
  induction m with
  | nil => rfl
  | cons kv t ih =>
    obtain ⟨k, v⟩ := kv
    by_cases hk : k = a
    · subst hk
      simp [List.filter_cons, h, Mem.read_cons]
    · by_cases hp : p (k, v) = true
      · simp [List.filter_cons, hp, Mem.read_cons, hk, ih]
      · simp [List.filter_cons, hp, Mem.read_cons, hk, ih]

/-- Filtering resets a cell whose address fails the filter. -/
theorem Mem.read_filter_drop (p : Nat × Nat → Bool) (m : Mem) (a : Nat)
    (h : ∀ v, p (a, v) = false) : Mem.read (m.filter p) a = 0 := by
  induction m with
  | nil => rfl
  | cons kv t ih =>
    obtain ⟨k, v⟩ := kv
    by_cases hk : k = a
    · subst hk
      simp [List.filter_cons, h, ih]
    · by_cases hp : p (k, v) = true
      · simp [List.filter_cons, hp, Mem.read_cons, hk, ih]
      · simp [List.filter_cons, hp, ih]

theorem Mem.read_write (m : Mem) (a v b : Nat) :
    (m.write a v).read b = if b = a then v else m.read b := by
  unfold Mem.write
  by_cases h : b = a
  · subst h; simp [Mem.read_cons]
  · have h2 : ¬ a = b := fun e => h e.symm
    rw [Mem.read_cons, if_neg h2, if_neg h]
    exact Mem.read_filter_keep _ m b (by intro v; simp [h])

theorem Mem.read_zero (m : Mem) (lo n b : Nat) :
    (m.zero lo n).read b = if lo ≤ b ∧ b < lo + n then 0 else m.read b := by
  unfold Mem.zero
  by_cases h : lo ≤ b ∧ b < lo + n
  · rw [if_pos h]
    exact Mem.read_filter_drop _ m b (by intro v; exact decide_eq_false (not_not.mpr h))
  · rw [if_neg h]
    exact Mem.read_filter_keep _ m b (by intro v; exact decide_eq_true h)

/-- A cell outside the image of the shifted source range is not in the copied part. -/
theorem Mem.read_shift_out (m : Mem) (dst src n b : Nat)
    (h : ¬ (dst ≤ b ∧ b < dst + n)) (rest : Mem) :
    Mem.read (((m.filter (fun kv => decide (src ≤ kv.1 ∧ kv.1 < src + n))).map
      (fun kv => (kv.1 - src + dst, kv.2))) ++ rest) b = Mem.read rest b := by
  induction m with
  | nil => rfl
  | cons kv t ih =>
    obtain ⟨k, v⟩ := kv
    by_cases hp : src ≤ k ∧ k < src + n
    · have hne : ¬ (k - src + dst = b) := by omega
      have hf : (fun kv : Nat × Nat => decide (src ≤ kv.1 ∧ kv.1 < src + n)) (k, v) = true :=
        decide_eq_true hp
      rw [Mem.filter_cons_pos (fun kv => decide (src ≤ kv.1 ∧ kv.1 < src + n)) (k, v) t hf, List.map_cons, List.cons_append,
        Mem.read_cons, if_neg hne]
      exact ih
    · have hf : ¬ (fun kv : Nat × Nat => decide (src ≤ kv.1 ∧ kv.1 < src + n)) (k, v) = true :=
        fun e => hp (of_decide_eq_true e)
      rw [Mem.filter_cons_neg (fun kv => decide (src ≤ kv.1 ∧ kv.1 < src + n)) (k, v) t hf]
      exact ih

/-- A cell inside the destination range reads what the source cell held. -/
theorem Mem.read_shift_in (m : Mem) (dst src n b : Nat)
    (h : dst ≤ b ∧ b < dst + n) (rest : Mem) (hr : Mem.read rest b = 0) :
    Mem.read (((m.filter (fun kv => decide (src ≤ kv.1 ∧ kv.1 < src + n))).map
      (fun kv => (kv.1 - src + dst, kv.2))) ++ rest) b = Mem.read m (b - dst + src) := by
  induction m with
  | nil => simpa [Mem.read_nil] using hr
  | cons kv t ih =>
    obtain ⟨k, v⟩ := kv
    by_cases hp : src ≤ k ∧ k < src + n
    · have hf : (fun kv : Nat × Nat => decide (src ≤ kv.1 ∧ kv.1 < src + n)) (k, v) = true :=
        decide_eq_true hp
      rw [Mem.filter_cons_pos (fun kv => decide (src ≤ kv.1 ∧ kv.1 < src + n)) (k, v) t hf, List.map_cons, List.cons_append,
        Mem.read_cons, Mem.read_cons]
      by_cases hk : k = b - dst + src
      · have he : k - src + dst = b := by omega
        rw [if_pos he, if_pos hk]
      · have hne : ¬ (k - src + dst = b) := by omega
        rw [if_neg hne, if_neg hk]
        exact ih
    · have hk : ¬ (k = b - dst + src) := by omega
      have hf : ¬ (fun kv : Nat × Nat => decide (src ≤ kv.1 ∧ kv.1 < src + n)) (k, v) = true :=
        fun e => hp (of_decide_eq_true e)
      rw [Mem.filter_cons_neg (fun kv => decide (src ≤ kv.1 ∧ kv.1 < src + n)) (k, v) t hf, Mem.read_cons, if_neg hk]
      exact ih

theorem Mem.read_copy (m : Mem) (dst src n b : Nat) :
    (m.copy dst src n).read b =
      if dst ≤ b ∧ b < dst + n then m.read (b - dst + src) else m.read b := by
  unfold Mem.copy
  by_cases h : dst ≤ b ∧ b < dst + n
  · rw [if_pos h]
    apply Mem.read_shift_in m dst src n b h
    exact Mem.read_filter_drop _ m b (by intro v; exact decide_eq_false (not_not.mpr h))
  · rw [if_neg h, Mem.read_shift_out m dst src n b h]
    exact Mem.read_filter_keep _ m b (by intro v; exact decide_eq_true h)

/-! ## Word arithmetic -/

theorem add64_eq (a b : Nat) (h : a + b < W) : add64 a b = a + b := by
  unfold add64
  exact Nat.mod_eq_of_lt h

theorem sub64_eq (a b : Nat) (h : b ≤ a) : sub64 a b = a - b := by
  unfold sub64
  rw [if_pos h]

/-- On sizes that do not wrap the macro `ALIGN` is `align8`. -/
theorem ALIGN_eq (n : Nat) (h : n + 7 < W) : ALIGN n = align8 n := by
  unfold ALIGN align8 ALIGNMENT
  rw [add64_eq n (8 - 1) h]

theorem align8_ge (n : Nat) : n ≤ align8 n := by
  unfold align8
  omega

theorem align8_lt (n : Nat) : align8 n < n + 8 := by
  unfold align8
  omega

/-- The size the entry points compute for a request that does not wrap. -/
theorem ALIGN_add64 (n : Nat) (h : n + META_SIZE + 7 < W) :
    ALIGN (add64 n META_SIZE) = align8 (n + META_SIZE) := by
  rw [add64_eq n META_SIZE (by omega), ALIGN_eq _ h]

/-! ## Reading a state after the stores of the allocator -/

theorem read_memset0 (p n : Nat) (s : State) (a : Nat) :
    (memset0 p n s).mem.read a = if p ≤ a ∧ a < p + n then 0 else s.mem.read a := by
  unfold memset0
  exact Mem.read_zero s.mem p n a

theorem read_memcpy (dst src n : Nat) (s : State) (a : Nat) :
    (memcpy dst src n s).mem.read a =
      if dst ≤ a ∧ a < dst + n then s.mem.read (a - dst + src) else s.mem.read a := by
  unfold memcpy
  exact Mem.read_copy s.mem dst src n a

/-- After `memset(b + 1, 0, b->size - sizeof(struct block_meta))` the header
still holds the size and every cell of the payload is zero. -/
theorem memset0_payload (b : Nat) (s : State) (i : Nat)
    (hi : i < (memset0 (b + META_SIZE) (sub64 (s.size b) META_SIZE) s).size b - META_SIZE) :
    (memset0 (b + META_SIZE) (sub64 (s.size b) META_SIZE) s).mem.read (b + META_SIZE + i) = 0 := by
  have hsz : (memset0 (b + META_SIZE) (sub64 (s.size b) META_SIZE) s).size b = s.size b := by
    unfold State.size
    rw [read_memset0, if_neg]
    unfold OFF_SIZE META_SIZE
    omega
  rw [hsz] at hi
  rw [read_memset0, if_pos]
  have h32 : META_SIZE ≤ s.size b := by omega
  rw [sub64_eq _ _ h32]
  omega

/-! ## Linked lists -/

theorem linked_nil (s : State) (q p : Nat) : Linked s q p [] ↔ p = 0 := Iff.rfl

theorem linked_cons (s : State) (q p b : Nat) (l : List Nat) :
    Linked s q p (b :: l) ↔ p = b ∧ b ≠ 0 ∧ s.prev b = q ∧ Linked s b (s.next b) l := Iff.rfl

/-- A list stays linked when the link fields of its blocks keep their values. -/
theorem linked_congr (s s1 : State) : ∀ (l : List Nat) (q p : Nat),
    (∀ b ∈ l, s1.prev b = s.prev b ∧ s1.next b = s.next b) → Linked s q p l → Linked s1 q p l
  | [], _, _, _, h => h
  | b :: l, q, p, hf, h => by
    rw [linked_cons] at h ⊢
    obtain ⟨h1, h2, h3, h4⟩ := h
    have hb := hf b (List.mem_cons_self b l)
    refine ⟨h1, h2, by rw [hb.1]; exact h3, ?_⟩
    rw [hb.2]
    exact linked_congr s s1 l b (s.next b) (fun c hc => hf c (List.mem_cons_of_mem b hc)) h4

theorem linked_ne_zero (s : State) : ∀ (l : List Nat) (q p : Nat),
    Linked s q p l → ∀ b ∈ l, b ≠ 0
  | [], _, _, _, _, hb => absurd hb (List.not_mem_nil _)
  | c :: l, q, p, h, b, hb => by
    rw [linked_cons] at h
    rcases List.mem_cons.mp hb with e | hm
    · rw [e]; exact h.2.1
    · exact linked_ne_zero s l c (s.next c) h.2.2.2 b hm

/-- A list whose head pointer is `NULL` is empty. -/
theorem linked_null (s : State) (q : Nat) (l : List Nat) (h : Linked s q 0 l) : l = [] := by
  cases l with
  | nil => rfl
  | cons b l =>
    rw [linked_cons] at h
    exact absurd h.1.symm h.2.1

/-- The head pointer of a linked list is its first block. -/
theorem linked_head (s : State) (q p : Nat) (l : List Nat) (h : Linked s q p l) :
    p = l.head?.getD 0 := by
  cases l with
  | nil => exact h
  | cons b l => exact ((linked_cons s q p b l).mp h).1

/-- The block of a linked list whose `next` is `NULL` is the last one. -/
theorem linked_next_null (s : State) : ∀ (l : List Nat) (q p b : Nat),
    Linked s q p l → b ∈ l → s.next b = 0 → l.getLast? = some b
  | [], _, _, _, _, hb, _ => absurd hb (List.not_mem_nil _)
  | c :: l, q, p, b, h, hb, hn => by
    rw [linked_cons] at h
    rcases List.mem_cons.mp hb with e | hm
    · subst e
      have h4 := h.2.2.2
      rw [hn] at h4
      rw [linked_null s b l h4]
      rfl
    · have ih := linked_next_null s l c (s.next c) b h.2.2.2 hm hn
      cases l with
      | nil => exact absurd hm (List.not_mem_nil _)
      | cons d l => rw [List.getLast?_cons_cons]; exact ih

/-- The `next` field of the last block of a linked list is `NULL`. -/
theorem linked_last_next (s : State) : ∀ (l : List Nat) (q p x : Nat),
    Linked s q p l → l.getLast? = some x → s.next x = 0
  | [], _, _, _, _, hx => by simp at hx
  | [c], q, p, x, h, hx => by
    rw [linked_cons, linked_nil] at h
    simp at hx
    rw [← hx]
    exact h.2.2.2
  | c :: d :: l, q, p, x, h, hx => by
    rw [linked_cons] at h
    rw [List.getLast?_cons_cons] at hx
    exact linked_last_next s (d :: l) c (s.next c) x h.2.2.2 hx

/-- With fuel for every block, the loop that walks to the end of a linked list
stops at its last block. -/
theorem last_from_linked (s : State) : ∀ (l : List Nat) (q p x fuel : Nat),
    Linked s q p l → l.getLast? = some x → l.length ≤ fuel → last_from s fuel p = some x
  | [], _, _, _, _, _, hx, _ => by simp at hx
  | [c], q, p, x, fuel, h, hx, hf => by
    rw [linked_cons, linked_nil] at h
    simp at hx
    obtain ⟨k, rfl⟩ : ∃ k, fuel = k + 1 := ⟨fuel - 1, by simp at hf; omega⟩
    rw [h.1, ← hx]
    simp [last_from, h.2.2.2]
  | c :: d :: l, q, p, x, fuel, h, hx, hf => by
    rw [linked_cons] at h
    rw [List.getLast?_cons_cons] at hx
    obtain ⟨k, rfl⟩ : ∃ k, fuel = k + 1 := ⟨fuel - 1, by simp at hf; omega⟩
    have h4 := h.2.2.2
    have hd : s.next c = d := ((linked_cons s c (s.next c) d l).mp h4).1
    have hd0 : d ≠ 0 := ((linked_cons s c (s.next c) d l).mp h4).2.1
    have hlen : (d :: l).length ≤ k := by simp at hf ⊢; omega
    have ih := last_from_linked s (d :: l) c (s.next c) x k h4 hx hlen
    rw [h.1]
    unfold last_from
    rw [if_pos (by rw [hd]; exact hd0)]
    exact ih

/-- Appending a block `x` behind a linked list: the old last block gets `x` as
its `next`, `x` gets the old last block (or `q`) as its `prev` and `NULL` as its
`next`, and the other link fields keep their values. -/
theorem linked_snoc (s s1 : State) (x : Nat) (hx : x ≠ 0) (hxn : s1.next x = 0) :
    ∀ (l : List Nat) (q p : Nat), Linked s q p l →
      (∀ b ∈ l, s1.prev b = s.prev b ∧ s1.next b = if s.next b = 0 then x else s.next b) →
      s1.prev x = l.getLast?.getD q → Linked s1 q (if p = 0 then x else p) (l ++ [x])
  | [], q, p, h, _, hp => by
    rw [linked_nil] at h
    rw [if_pos h, List.nil_append, linked_cons, linked_nil]
    exact ⟨rfl, hx, by simpa using hp, hxn⟩
  | b :: l, q, p, h, hf, hp => by
    rw [linked_cons] at h
    obtain ⟨h1, h2, h3, h4⟩ := h
    have hb := hf b (List.mem_cons_self b l)
    rw [if_neg (by rw [h1]; exact h2), List.cons_append, linked_cons]
    refine ⟨h1, h2, by rw [hb.1]; exact h3, ?_⟩
    rw [hb.2]
    have hp2 : s1.prev x = l.getLast?.getD b := by
      rw [hp]
      cases l with
      | nil => rfl
      | cons d l =>
        rw [List.getLast?_cons_cons, List.getLast?_eq_getLast (d :: l) (List.cons_ne_nil d l)]
        rfl
    exact linked_snoc s s1 x hx hxn l b (s.next b) h4
      (fun c hc => hf c (List.mem_cons_of_mem b hc)) hp2

/-! ## The mapped path -/

theorem apart_symm (a b : Nat) (h : apart a b) : apart b a := Or.symm h

/-- Two blocks of a list of non-overlapping headers are the same block or apart. -/
theorem sep_apart (l : List Nat) (h : Sep l) (a b : Nat) (ha : a ∈ l) (hb : b ∈ l) :
    a = b ∨ apart a b := by
  by_cases e : a = b
  · exact Or.inl e
  · exact Or.inr (List.Pairwise.forall (fun x y hxy => apart_symm x y hxy) h ha hb e)

theorem read_mmap (res len : Nat) (s : State) (a : Nat) :
    (mmap res len s).mem.read a =
      if res ≠ MAP_FAILED ∧ res ≤ a ∧ a < res + len then 0 else s.mem.read a := by
  unfold mmap
  by_cases h : res = MAP_FAILED
  · simp [h]
  · simp [h, Mem.read_zero]

theorem mmap_map_head (res len : Nat) (s : State) : (mmap res len s).map_head = s.map_head := by
  unfold mmap
  split <;> rfl

theorem mmap_brk_head (res len : Nat) (s : State) : (mmap res len s).brk_head = s.brk_head := by
  unfold mmap
  split <;> rfl

theorem mmap_brk (res len : Nat) (s : State) : (mmap res len s).brk = s.brk := by
  unfold mmap
  split <;> rfl

/-- What the mapped path does to a well-linked mapped list `l` whose headers
overlap neither each other nor the block at `res`: the block at `res` becomes
the new last block, with the requested size and status 2, and nothing else
changes but the `next` field of the old last block. -/
theorem map_block_spec (s : State) (fuel res new_size : Nat) (l : List Nat)
    (hl : Linked s 0 s.map_head l) (hsep : Sep l) (hfuel : l.length ≤ fuel) (hres : res ≠ 0)
    (hhdr : ∀ b ∈ l, apart b res)
    (hrange : res ≠ MAP_FAILED → ∀ b ∈ l, b + META_SIZE ≤ res ∨ res + new_size ≤ b) :
    ∃ s1, map_block fuel res new_size s = some (res, s1) ∧
      Linked s1 0 s1.map_head (l ++ [res]) ∧
      s1.size res = new_size ∧ s1.status res = 2 ∧
      s1.brk_head = s.brk_head ∧ s1.brk = s.brk ∧ s1.maps = (mmap res new_size s).maps ∧
      ∀ a, (a < res ∨ res + META_SIZE ≤ a) →
        (res = MAP_FAILED ∨ a < res ∨ res + new_size ≤ a) →
        (∀ x, l.getLast? = some x → a ≠ x + OFF_NEXT) → s1.mem.read a = s.mem.read a := by
  cases hcase : l.getLast? with
  | none =>
    have hnil : l = [] := List.getLast?_eq_none_iff.mp hcase
    subst hnil
    have hh : s.map_head = 0 := hl
    refine ⟨(State.setNext { ((mmap res new_size s).setSize res new_size).setStatus res 2 with
      map_head := res } res 0).setPrev res 0, ?_, ?_, ?_, ?_, ?_, ?_, ?_, ?_⟩
    · unfold map_block
      simp [State.setStatus, State.setSize, State.setNext, State.setPrev, State.next,
        mmap_map_head, hh, Mem.read_write]
    · rw [List.nil_append, linked_cons, linked_nil]
      refine ⟨rfl, hres, ?_, ?_⟩
      · simp [State.prev, State.next, State.setPrev, State.setNext, Mem.read_write, OFF_PREV,
          OFF_NEXT]
      · simp [State.prev, State.next, State.setPrev, State.setNext, Mem.read_write, OFF_PREV,
          OFF_NEXT]
    · simp [State.size, State.setPrev, State.setNext, State.setStatus, State.setSize,
        Mem.read_write, OFF_PREV, OFF_NEXT, OFF_SIZE, OFF_STATUS]
    · simp [State.status, State.setPrev, State.setNext, State.setStatus, State.setSize,
        Mem.read_write, OFF_PREV, OFF_NEXT, OFF_SIZE, OFF_STATUS]
    · simp [State.setPrev, State.setNext, State.setStatus, State.setSize, mmap_brk_head]
    · simp [State.setPrev, State.setNext, State.setStatus, State.setSize, mmap_brk]
    · simp [State.setPrev, State.setNext, State.setStatus, State.setSize]
    · intro a ha1 ha2 _
      simp only [State.setPrev, State.setNext, State.setStatus, State.setSize, Mem.read_write,
        read_mmap, OFF_PREV, OFF_NEXT, OFF_SIZE, OFF_STATUS]
      unfold META_SIZE at ha1
      rw [if_neg (by omega), if_neg (by omega), if_neg (by omega), if_neg (by omega),
        if_neg (by omega)]
  | some x =>
    have hxl : x ∈ l := List.mem_of_getLast?_eq_some hcase
    have hx0 : x ≠ 0 := linked_ne_zero s l 0 s.map_head hl x hxl
    have hxn : s.next x = 0 := linked_last_next s l 0 s.map_head x hl hcase
    have hh : s.map_head ≠ 0 := by
      intro e
      rw [e] at hl
      rw [linked_null s 0 l hl] at hxl
      exact absurd hxl (List.not_mem_nil _)
    have hxr := hhdr x hxl
    unfold apart META_SIZE at hxr
    have hread2 : ∀ a, (((mmap res new_size s).setSize res new_size).setStatus res 2).mem.read a
        = if a = res + 8 then 2 else if a = res then new_size
          else if res ≠ MAP_FAILED ∧ res ≤ a ∧ a < res + new_size then 0 else s.mem.read a := by
      intro a
      simp only [State.setStatus, State.setSize, Mem.read_write, read_mmap, OFF_SIZE,
        OFF_STATUS, Nat.add_zero]
    have hcell : ∀ b ∈ l, ∀ k, k < META_SIZE →
        (((mmap res new_size s).setSize res new_size).setStatus res 2).mem.read (b + k)
          = s.mem.read (b + k) := by
      intro b hb k hk
      have h1 := hhdr b hb
      unfold apart at h1
      unfold META_SIZE at h1 hk
      rw [hread2, if_neg (by omega), if_neg (by omega)]
      by_cases hf : res = MAP_FAILED
      · rw [if_neg (by simp [hf])]
      · have h2 := hrange hf b hb
        unfold META_SIZE at h2
        rw [if_neg (by omega)]
    have hl2 : Linked (((mmap res new_size s).setSize res new_size).setStatus res 2) 0
        s.map_head l :=
      linked_congr s _ l 0 s.map_head
        (fun b hb => ⟨hcell b hb OFF_PREV (by decide), hcell b hb OFF_NEXT (by decide)⟩) hl
    have hlast := last_from_linked _ l 0 s.map_head x fuel hl2 hcase hfuel
    have hread : ∀ a, ((((((mmap res new_size s).setSize res new_size).setStatus res 2).setNext
          x res).setNext res 0).setPrev res x).mem.read a
        = if a = res + 16 then x else if a = res + 24 then 0 else if a = x + 24 then res
          else if a = res + 8 then 2 else if a = res then new_size
          else if res ≠ MAP_FAILED ∧ res ≤ a ∧ a < res + new_size then 0 else s.mem.read a := by
      intro a
      simp only [State.setStatus, State.setSize, State.setNext, State.setPrev, Mem.read_write,
        read_mmap, OFF_SIZE, OFF_STATUS, OFF_NEXT, OFF_PREV, Nat.add_zero]
    have hcell1 : ∀ b ∈ l, ∀ k, k < META_SIZE → b + k ≠ x + 24 →
        ((((((mmap res new_size s).setSize res new_size).setStatus res 2).setNext
          x res).setNext res 0).setPrev res x).mem.read (b + k) = s.mem.read (b + k) := by
      intro b hb k hk hne
      have h1 := hhdr b hb
      unfold apart at h1
      unfold META_SIZE at h1 hk
      rw [hread, if_neg (by omega), if_neg (by omega), if_neg hne, if_neg (by omega),
        if_neg (by omega)]
      by_cases hf : res = MAP_FAILED
      · rw [if_neg (by simp [hf])]
      · have h2 := hrange hf b hb
        unfold META_SIZE at h2
        rw [if_neg (by omega)]
    refine ⟨(((((mmap res new_size s).setSize res new_size).setStatus res 2).setNext
      x res).setNext res 0).setPrev res x, ?_, ?_, ?_, ?_, ?_, ?_, ?_, ?_⟩
    · have hmh2 : (((mmap res new_size s).setSize res new_size).setStatus res 2).map_head
          = s.map_head := by
        simp [State.setStatus, State.setSize, mmap_map_head]
      unfold map_block
      simp only [hmh2, if_neg hh, hlast]
    · have hsn := linked_snoc s ((((((mmap res new_size s).setSize res new_size).setStatus
        res 2).setNext x res).setNext res 0).setPrev res x) res hres
        (by unfold State.next OFF_NEXT; rw [hread, if_neg (by omega), if_pos rfl])
        l 0 s.map_head hl ?_ ?_
      · rw [if_neg hh] at hsn
        have hmh : ((((((mmap res new_size s).setSize res new_size).setStatus
          res 2).setNext x res).setNext res 0).setPrev res x).map_head = s.map_head := by
          simp [State.setStatus, State.setSize, State.setNext, State.setPrev, mmap_map_head]
        rw [hmh]
        exact hsn
      · intro b hb
        have hbx := sep_apart l hsep b x hb hxl
        unfold apart META_SIZE at hbx
        constructor
        · unfold State.prev OFF_PREV
          exact hcell1 b hb 16 (by decide) (by omega)
        · by_cases hn : s.next b = 0
          · have hlb := linked_next_null s l 0 s.map_head b hl hb hn
            rw [hcase] at hlb
            have hbe : x = b := Option.some.inj hlb
            subst hbe
            rw [if_pos hn]
            unfold State.next OFF_NEXT
            rw [hread, if_neg (by omega), if_neg (by omega), if_pos rfl]
          · rw [if_neg hn]
            have hne : b ≠ x := fun e => hn (by rw [e]; exact hxn)
            unfold State.next OFF_NEXT
            exact hcell1 b hb 24 (by decide) (by omega)
      · rw [hcase]
        unfold State.prev OFF_PREV
        rw [hread, if_pos rfl]
        rfl
    · unfold State.size OFF_SIZE
      rw [hread, if_neg (by omega), if_neg (by omega), if_neg (by omega), if_neg (by omega),
        if_pos (by omega)]
    · unfold State.status OFF_STATUS
      rw [hread, if_neg (by omega), if_neg (by omega), if_neg (by omega), if_pos rfl]
    · simp [State.setPrev, State.setNext, State.setStatus, State.setSize, mmap_brk_head]
    · simp [State.setPrev, State.setNext, State.setStatus, State.setSize, mmap_brk]
    · simp [State.setPrev, State.setNext, State.setStatus, State.setSize]
    · intro a ha1 ha2 ha3
      have h3 := ha3 x rfl
      unfold OFF_NEXT at h3
      unfold META_SIZE at ha1
      rw [hread, if_neg (by omega), if_neg (by omega), if_neg h3, if_neg (by omega),
        if_neg (by omega), if_neg (by omega)]

/-! ## Unlinking a block -/

/-- The neighbours of a block inside a linked list. -/
theorem linked_mid (s : State) (b : Nat) (l2 : List Nat) : ∀ (l1 : List Nat) (q p : Nat),
    Linked s q p (l1 ++ b :: l2) →
      Linked s b (s.next b) l2 ∧ s.prev b = l1.getLast?.getD q ∧ b ≠ 0
  | [], q, p, h => by
    rw [List.nil_append, linked_cons] at h
    exact ⟨h.2.2.2, h.2.2.1, h.2.1⟩
  | x :: l1, q, p, h => by
    rw [List.cons_append, linked_cons] at h
    obtain ⟨h1, h2, h3⟩ := linked_mid s b l2 l1 x (s.next x) h.2.2.2
    refine ⟨h1, ?_, h3⟩
    rw [h2]
    cases l1 with
    | nil => rfl
    | cons d l =>
      rw [List.getLast?_cons_cons, List.getLast?_eq_getLast (d :: l) (List.cons_ne_nil d l)]
      rfl

theorem sep_cons (x : Nat) (l : List Nat) (h : Sep (x :: l)) :
    Sep l ∧ ∀ y ∈ l, apart x y := by
  unfold Sep at h ⊢
  rw [List.pairwise_cons] at h
  exact ⟨h.2, h.1⟩

theorem apart_ne (a b : Nat) (h : apart a b) : a ≠ b := by
  unfold apart META_SIZE at h
  omega

/-- Taking the block `b` out of a linked list: the `prev` field of its
successor `nb` gets its predecessor `pb`, the `next` field of `pb` gets `nb`,
and the other link fields keep their values. -/
theorem linked_unlink (s s1 : State) (b nb pb : Nat) (l2 : List Nat)
    (hn : s.next b = nb) (hp : s.prev b = pb) :
    ∀ (l1 : List Nat) (q p : Nat), Linked s q p (l1 ++ b :: l2) → Sep (l1 ++ b :: l2) →
      q ∉ l1 ++ b :: l2 →
      (∀ x ∈ l1 ++ l2, s1.prev x = if x = nb then pb else s.prev x) →
      (∀ x ∈ l1 ++ l2, s1.next x = if x = pb then nb else s.next x) →
      Linked s1 q (if l1 = [] then nb else p) (l1 ++ l2)
  | [], q, p, h, hs, hq, hpv, hnx => by
    rw [List.nil_append] at h hs hq hpv hnx ⊢
    rw [linked_cons] at h
    obtain ⟨_, _, h3, h4⟩ := h
    rw [if_pos rfl]
    rw [hn] at h4
    have hpq : pb = q := by rw [← hp]; exact h3
    cases l2 with
    | nil => exact h4
    | cons n l2 =>
      rw [linked_cons] at h4 ⊢
      obtain ⟨e1, e2, _, e4⟩ := h4
      have hnq : n ≠ pb := by
        rw [hpq]
        intro e
        exact hq (by rw [← e]; simp)
      have hsn := (sep_cons n l2 (sep_cons b (n :: l2) hs).1).2
      refine ⟨e1, e2, ?_, ?_⟩
      · rw [hpv n (List.mem_cons_self n l2), if_pos e1.symm, hpq]
      · rw [hnx n (List.mem_cons_self n l2), if_neg hnq]
        refine linked_congr s s1 l2 n (s.next n) ?_ e4
        intro y hy
        have hy1 : y ≠ nb := by rw [e1]; exact (apart_ne n y (hsn y hy)).symm
        have hy2 : y ≠ pb := by
          rw [hpq]
          intro e
          exact hq (by rw [← e]; simp [hy])
        rw [hpv y (List.mem_cons_of_mem n hy), hnx y (List.mem_cons_of_mem n hy), if_neg hy1,
          if_neg hy2]
        exact ⟨rfl, rfl⟩
  | x :: l1, q, p, h, hs, hq, hpv, hnx => by
    rw [List.cons_append] at h hs hq hpv hnx ⊢
    rw [linked_cons] at h ⊢
    obtain ⟨h1, h2, h3, h4⟩ := h
    obtain ⟨hs1, hs2⟩ := sep_cons x (l1 ++ b :: l2) hs
    have hxt : x ∉ l1 ++ b :: l2 := fun hm => apart_ne x x (hs2 x hm) rfl
    have ih := linked_unlink s s1 b nb pb l2 hn hp l1 x (s.next x) h4 hs1 hxt
      (fun y hy => hpv y (List.mem_cons_of_mem x hy))
      (fun y hy => hnx y (List.mem_cons_of_mem x hy))
    obtain ⟨m1, m2, _⟩ := linked_mid s b l2 l1 x (s.next x) h4
    have hnb : x ≠ nb := by
      have hh := linked_head s b (s.next b) l2 m1
      rw [hn] at hh
      cases l2 with
      | nil =>
        rw [hh]
        exact h2
      | cons n l2 =>
        have e : nb = n := hh
        rw [e]
        exact apart_ne x n (hs2 n (by simp))
    rw [if_neg (List.cons_ne_nil x l1)]
    refine ⟨h1, h2, ?_, ?_⟩
    · rw [hpv x (List.mem_cons_self x _), if_neg hnb]
      exact h3
    · rw [hnx x (List.mem_cons_self x _)]
      rw [hp] at m2
      cases l1 with
      | nil =>
        have e : pb = x := m2
        rw [if_pos e.symm]
        rw [if_pos rfl] at ih
        exact ih
      | cons d l =>
        have hmem : pb ∈ d :: l := by
          rw [m2, List.getLast?_eq_getLast (d :: l) (List.cons_ne_nil d l)]
          exact List.getLast_mem _
        have hxp : x ≠ pb := apart_ne x pb (hs2 pb (List.mem_append_left _ hmem))
        rw [if_neg hxp]
        rw [if_neg (List.cons_ne_nil d l)] at ih
        exact ih

/-- The state after `os_free` of a block of status 2 with a non-zero size
whose header overlaps neither the header of its successor nor the header of
its predecessor. -/
theorem os_free_mapped_state (s : State) (b : Nat) (hst : s.status b = 2) (hsz : s.size b ≠ 0)
    (hnb : s.next b = 0 ∨ apart b (s.next b)) (hpb : s.prev b = 0 ∨ apart b (s.prev b))
    (hnp : s.next b = 0 ∨ s.prev b = 0 ∨ apart (s.next b) (s.prev b)) :
    (os_free (b + META_SIZE) s).brk_head = s.brk_head ∧
    (os_free (b + META_SIZE) s).brk = s.brk ∧
    (os_free (b + META_SIZE) s).maps = s.maps.erase (b, s.size b) ∧
    (os_free (b + META_SIZE) s).map_head = (if s.prev b ≠ 0 then s.map_head else s.next b) ∧
    ∀ a, (os_free (b + META_SIZE) s).mem.read a =
      if s.prev b ≠ 0 ∧ a = s.prev b + OFF_NEXT then s.next b
      else if s.next b ≠ 0 ∧ a = s.next b + OFF_PREV then s.prev b else s.mem.read a := by
  have hptr : b + META_SIZE ≠ 0 := by unfold META_SIZE; omega
  have hst1 : ¬ (s.status b = 1) := by rw [hst]; decide
  have hM : META_SIZE = 32 := rfl
  unfold apart at hnb hpb hnp
  have hAn : (if s.next b ≠ 0 then s.setPrev (s.next b) (s.prev b) else s).next b = s.next b := by
    by_cases hn : s.next b = 0
    · rw [if_neg (not_not.mpr hn)]
    · rw [if_pos hn]
      unfold State.setPrev
      show (s.mem.write (s.next b + OFF_PREV) (s.prev b)).read (b + OFF_NEXT) = s.next b
      rw [Mem.read_write, if_neg (by unfold OFF_NEXT OFF_PREV; omega)]
      rfl
  have hAp : (if s.next b ≠ 0 then s.setPrev (s.next b) (s.prev b) else s).prev b = s.prev b := by
    by_cases hn : s.next b = 0
    · rw [if_neg (not_not.mpr hn)]
    · rw [if_pos hn]
      unfold State.setPrev
      show (s.mem.write (s.next b + OFF_PREV) (s.prev b)).read (b + OFF_PREV) = s.prev b
      rw [Mem.read_write, if_neg (by unfold OFF_PREV; omega)]
      rfl
  have hfree : os_free (b + META_SIZE) s = munmap b
      ((if s.prev b ≠ 0 then
          (if s.next b ≠ 0 then s.setPrev (s.next b) (s.prev b) else s).setNext (s.prev b)
            (s.next b)
        else { (if s.next b ≠ 0 then s.setPrev (s.next b) (s.prev b) else s) with
          map_head := s.next b }).size b)
      (if s.prev b ≠ 0 then
          (if s.next b ≠ 0 then s.setPrev (s.next b) (s.prev b) else s).setNext (s.prev b)
            (s.next b)
        else { (if s.next b ≠ 0 then s.setPrev (s.next b) (s.prev b) else s) with
          map_head := s.next b }) := by
    unfold os_free
    rw [if_neg hptr]
    simp only [Nat.add_sub_cancel, if_neg hsz, hst, eq_false (by decide : ¬ ((2 : Nat) = 1)),
      if_false, if_true, hAn, hAp]
  have hBsz : (if s.prev b ≠ 0 then
          (if s.next b ≠ 0 then s.setPrev (s.next b) (s.prev b) else s).setNext (s.prev b)
            (s.next b)
        else { (if s.next b ≠ 0 then s.setPrev (s.next b) (s.prev b) else s) with
          map_head := s.next b }).size b = s.size b := by
    by_cases hn : s.next b = 0 <;> by_cases hp : s.prev b = 0
    · simp only [hn, hp, ne_eq, not_true_eq_false, if_false, State.size]
    · simp only [hn, hp, ne_eq, not_true_eq_false, not_false_eq_true, if_false, if_true,
        State.size, State.setNext, Mem.read_write]
      rw [if_neg (by unfold OFF_SIZE OFF_NEXT; omega)]
    · simp only [hn, hp, ne_eq, not_true_eq_false, not_false_eq_true, if_false, if_true,
        State.size, State.setPrev, Mem.read_write]
      rw [if_neg (by unfold OFF_SIZE OFF_PREV; omega)]
    · simp only [hn, hp, ne_eq, not_true_eq_false, not_false_eq_true, if_false, if_true,
        State.size, State.setNext, State.setPrev, Mem.read_write]
      rw [if_neg (by unfold OFF_SIZE OFF_NEXT; omega), if_neg (by unfold OFF_SIZE OFF_PREV; omega)]
  rw [hfree, hBsz]
  by_cases hn : s.next b = 0 <;> by_cases hp : s.prev b = 0
  · simp [hn, hp, munmap]
  · simp [hn, hp, munmap, State.setNext, Mem.read_write]
  · simp [hn, hp, munmap, State.setPrev, Mem.read_write]
  · simp [hn, hp, munmap, State.setNext, State.setPrev, Mem.read_write]

/-! ## Sessions of a client -/

/-- A configuration reached by running calls from a reachable one is reachable. -/
theorem reachable_run : ∀ (ops : List Op) (c c1 : Config),
    Reachable c → run ops c = some c1 → Reachable c1
  | [], c, c1, hc, h => by
    have e : c = c1 := Option.some.inj h
    rw [← e]
    exact hc
  | op :: ops, c, c1, hc, h => by
    unfold run at h
    cases hs : step op c with
    | none => rw [hs] at h; exact absurd h (by simp)
    | some c2 =>
      rw [hs] at h
      exact reachable_run ops c2 c1 (Reachable.step op c c2 hc hs) h

theorem reachable_start : Reachable startConfig :=
  Reachable.init 1048576 (by decide) (by decide) (by decide)

theorem reachable_cycleConfig : Reachable cycleConfig :=
  reachable_run cycleSession startConfig cycleConfig reachable_start (by decide)

theorem reachable_growConfig : Reachable growConfig :=
  reachable_run growSession startConfig growConfig reachable_start (by decide)

theorem reachable_splitConfig : Reachable splitConfig :=
  reachable_run splitSession startConfig splitConfig reachable_start (by decide)

/-- In `cycleConfig` the search for a free block of 136 bytes runs out of any
fuel: the blocks at `1048656`, `1048696` and `1048736` are smaller and each
leads to the next, the last one back to the first. -/
theorem cycle_search_never_ends : ∀ fuel : Nat,
    find_best_fit_from cycleConfig.st 136 fuel 1048656 = none ∧
    find_best_fit_from cycleConfig.st 136 fuel 1048696 = none ∧
    find_best_fit_from cycleConfig.st 136 fuel 1048736 = none
  | 0 => ⟨rfl, rfl, rfl⟩
  | k + 1 => by
    obtain ⟨h1, h2, h3⟩ := cycle_search_never_ends k
    have a1 : cycleConfig.st.size 1048656 = 40 := by decide
    have a2 : cycleConfig.st.size 1048696 = 40 := by decide
    have a3 : cycleConfig.st.size 1048736 = 40 := by decide
    have n1 : cycleConfig.st.next 1048656 = 1048696 := by decide
    have n2 : cycleConfig.st.next 1048696 = 1048736 := by decide
    have n3 : cycleConfig.st.next 1048736 = 1048656 := by decide
    refine ⟨?_, ?_, ?_⟩
    · unfold find_best_fit_from
      rw [a1, n1, if_neg (by decide), if_neg (by decide)]
      exact h2
    · unfold find_best_fit_from
      rw [a2, n2, if_neg (by decide), if_neg (by decide)]
      exact h3
    · unfold find_best_fit_from
      rw [a3, n3, if_neg (by decide), if_neg (by decide)]
      exact h1

/-! ## Forward lists -/

theorem chain_nil (s : State) (p : Nat) : Chain s p [] ↔ p = 0 := Iff.rfl

theorem chain_cons (s : State) (p b : Nat) (l : List Nat) :
    Chain s p (b :: l) ↔ p = b ∧ b ≠ 0 ∧ Chain s (s.next b) l := Iff.rfl

theorem chain_ne_zero (s : State) : ∀ (l : List Nat) (p : Nat),
    Chain s p l → ∀ b ∈ l, b ≠ 0
  | [], _, _, _, hb => absurd hb (List.not_mem_nil _)
  | c :: l, p, h, b, hb => by
    rw [chain_cons] at h
    rcases List.mem_cons.mp hb with e | hm
    · rw [e]; exact h.2.1
    · exact chain_ne_zero s l (s.next c) h.2.2 b hm

/-- A forward list stays what it is when the `next` fields of its blocks keep
their values. -/
theorem chain_congr (s s1 : State) : ∀ (l : List Nat) (p : Nat),
    (∀ b ∈ l, s1.next b = s.next b) → Chain s p l → Chain s1 p l
  | [], _, _, h => h
  | b :: l, p, hf, h => by
    rw [chain_cons] at h ⊢
    refine ⟨h.1, h.2.1, ?_⟩
    rw [hf b (List.mem_cons_self b l)]
    exact chain_congr s s1 l (s.next b) (fun c hc => hf c (List.mem_cons_of_mem b hc)) h.2.2

/-- A well-linked list is a forward list. -/
theorem linked_chain (s : State) : ∀ (l : List Nat) (q p : Nat), Linked s q p l → Chain s p l
  | [], _, _, h => h
  | b :: l, q, p, h => by
    rw [linked_cons] at h
    rw [chain_cons]
    exact ⟨h.1, h.2.1, linked_chain s l b (s.next b) h.2.2.2⟩

/-- The loop of `find_best_fit`, with fuel for every block and one more step,
stops at the first block of the forward list that passes its test, and at
`NULL` when no block does. -/
theorem find_from_first (s : State) (size : Nat) : ∀ (l : List Nat) (p fuel : Nat),
    Chain s p l → l.length < fuel →
      ∃ r, find_best_fit_from s size fuel p = some r ∧
        ((r = 0 ∧ ∀ b ∈ l, ¬ fits s size b) ∨
          (∃ l1 l2, l = l1 ++ r :: l2 ∧ fits s size r ∧ ∀ b ∈ l1, ¬ fits s size b))
  | [], p, fuel, h, hf => by
    obtain ⟨k, rfl⟩ : ∃ k, fuel = k + 1 := ⟨fuel - 1, by simp at hf; omega⟩
    rw [chain_nil] at h
    refine ⟨0, ?_, Or.inl ⟨rfl, fun b hb => absurd hb (List.not_mem_nil _)⟩⟩
    unfold find_best_fit_from
    rw [if_pos h]
  | c :: l, p, fuel, h, hf => by
    obtain ⟨k, rfl⟩ : ∃ k, fuel = k + 1 := ⟨fuel - 1, by simp at hf; omega⟩
    rw [chain_cons] at h
    obtain ⟨h1, h2, h3⟩ := h
    have hp : ¬ p = 0 := by rw [h1]; exact h2
    by_cases hc : fits s size c
    · refine ⟨c, ?_, Or.inr ⟨[], l, rfl, hc, fun b hb => absurd hb (List.not_mem_nil _)⟩⟩
      unfold find_best_fit_from
      rw [if_neg hp, h1]
      exact if_pos hc
    · have hlen : l.length < k := by simp at hf; omega
      obtain ⟨r, hr, hcase⟩ := find_from_first s size l (s.next c) k h3 hlen
      refine ⟨r, ?_, ?_⟩
      · unfold find_best_fit_from
        rw [if_neg hp, h1]
        exact (if_neg hc).trans hr
      · rcases hcase with ⟨e, hall⟩ | ⟨l1, l2, e, hfit, hall⟩
        · left
          refine ⟨e, ?_⟩
          intro b hb
          rcases List.mem_cons.mp hb with e1 | hm
          · rw [e1]; exact hc
          · exact hall b hm
        · right
          refine ⟨c :: l1, l2, by rw [e]; rfl, hfit, ?_⟩
          intro b hb
          rcases List.mem_cons.mp hb with e1 | hm
          · rw [e1]; exact hc
          · exact hall b hm

/-- Inserting a block `nm` behind the block `f` of a forward list: `f` gets
`nm` as its `next`, `nm` gets the old `next` of `f`, and the other `next`
fields keep their values. -/
theorem chain_insert (s s1 : State) (f nm : Nat) (l2 : List Nat) (hnm : nm ≠ 0)
    (hf : s1.next f = nm) (hn : s1.next nm = s.next f) :
    ∀ (l1 : List Nat) (p : Nat), Chain s p (l1 ++ f :: l2) →
      (∀ b ∈ l1 ++ l2, s1.next b = s.next b) → Chain s1 p (l1 ++ f :: nm :: l2)
  | [], p, h, ho => by
    rw [List.nil_append] at h ho ⊢
    rw [chain_cons] at h
    rw [chain_cons, chain_cons, hf, hn]
    exact ⟨h.1, h.2.1, rfl, hnm, chain_congr s s1 l2 (s.next f) ho h.2.2⟩
  | x :: l1, p, h, ho => by
    rw [List.cons_append] at h ho ⊢
    rw [chain_cons] at h ⊢
    refine ⟨h.1, h.2.1, ?_⟩
    rw [ho x (List.mem_cons_self x _)]
    exact chain_insert s s1 f nm l2 hnm hf hn l1 (s.next x) h.2.2
      (fun b hb => ho b (List.mem_cons_of_mem x hb))

/-- The head pointer of a forward list is its first block. -/
theorem chain_head_ne_zero (s : State) (p f : Nat) (l1 l2 : List Nat)
    (h : Chain s p (l1 ++ f :: l2)) : p ≠ 0 := by
  cases l1 with
  | nil =>
    rw [List.nil_append, chain_cons] at h
    rw [h.1]; exact h.2.1
  | cons x l1 =>
    rw [List.cons_append, chain_cons] at h
    rw [h.1]; exact h.2.1

/-! ## Merging a block with its successor -/

/-- The function `coalesce_blocks` stores to memory only. -/
theorem coalesce_frame (x : Nat) (t : State) :
    (coalesce_blocks x t).brk_head = t.brk_head ∧ (coalesce_blocks x t).map_head = t.map_head ∧
    (coalesce_blocks x t).brk = t.brk ∧ (coalesce_blocks x t).maps = t.maps := by
  unfold coalesce_blocks
  dsimp only
  split_ifs <;> exact ⟨rfl, rfl, rfl, rfl⟩

/-- The function `coalesce_blocks` on the block `x` of a well-linked list of
non-overlapping headers in which `n` follows `x`: `n` leaves the list, `x`
gets the sum of the two sizes, and nothing else changes for the blocks of the
list. -/
theorem coalesce_linked (t : State) (h x n : Nat) (la lb : List Nat)
    (hl : Linked t 0 h (la ++ x :: n :: lb)) (hsep : Sep (la ++ x :: n :: lb)) :
    Linked (coalesce_blocks x t) 0 h (la ++ x :: lb) ∧
    (coalesce_blocks x t).size x = add64 (t.size x) (t.size n) ∧
    (coalesce_blocks x t).status x = t.status x ∧
    (coalesce_blocks x t).status n = t.status n ∧
    (coalesce_blocks x t).prev x = t.prev x ∧
    (∀ y ∈ la ++ lb, (coalesce_blocks x t).size y = t.size y ∧
      (coalesce_blocks x t).status y = t.status y) ∧
    (coalesce_blocks x t).brk_head = t.brk_head ∧ (coalesce_blocks x t).map_head = t.map_head ∧
    (coalesce_blocks x t).brk = t.brk ∧ (coalesce_blocks x t).maps = t.maps := by
  have hM : META_SIZE = 32 := rfl
  have hOS : OFF_SIZE = 0 := rfl
  have hOT : OFF_STATUS = 8 := rfl
  have hOP : OFF_PREV = 16 := rfl
  have hON : OFF_NEXT = 24 := rfl
  have hlist : la ++ x :: n :: lb = (la ++ [x]) ++ n :: lb := by simp
  have hl2 : Linked t 0 h ((la ++ [x]) ++ n :: lb) := by rw [← hlist]; exact hl
  have hsep2 : Sep ((la ++ [x]) ++ n :: lb) := by rw [← hlist]; exact hsep
  obtain ⟨hmidx, _, hx0⟩ := linked_mid t x (n :: lb) la 0 h hl
  obtain ⟨hmidn, hprevn, hn0⟩ := linked_mid t n lb (la ++ [x]) 0 h hl2
  have hnx : t.next x = n := ((linked_cons t x (t.next x) n lb).mp hmidx).1
  have hpn : t.prev n = x := by
    rw [hprevn]
    simp
  have hall := linked_ne_zero t _ 0 h hl
  have pairApart : ∀ y ∈ la ++ x :: n :: lb, ∀ z ∈ la ++ x :: n :: lb, y = z ∨ apart y z :=
    fun y hy z hz => sep_apart _ hsep y z hy hz
  have hxm : x ∈ la ++ x :: n :: lb := by simp
  have hnm : n ∈ la ++ x :: n :: lb := by simp
  have hxn : apart x n := by
    unfold Sep at hsep
    rw [List.pairwise_append] at hsep
    exact (List.pairwise_cons.mp hsep.2.1).1 n (List.mem_cons_self n lb)
  -- the successor of `n` is `NULL` or a block of `lb`
  have hnb : t.next n = 0 ∨ t.next n ∈ lb := by
    have hh := linked_head t n (t.next n) lb hmidn
    cases lb with
    | nil => exact Or.inl hh
    | cons m lb =>
      right
      have e : t.next n = m := hh
      rw [e]
      exact List.mem_cons_self m lb
  have hnbm : t.next n = 0 ∨ t.next n ∈ la ++ x :: n :: lb := by
    rcases hnb with h0 | h1
    · exact Or.inl h0
    · right; simp [h1]
  have hnbx : t.next n = 0 ∨ apart (t.next n) x := by
    rcases hnb with h0 | h1
    · exact Or.inl h0
    · right
      unfold Sep at hsep
      rw [List.pairwise_append] at hsep
      exact apart_symm _ _ ((List.pairwise_cons.mp hsep.2.1).1 _ (List.mem_cons_of_mem n h1))
  have hnbn : t.next n = 0 ∨ apart (t.next n) n := by
    rcases hnb with h0 | h1
    · exact Or.inl h0
    · right
      unfold Sep at hsep
      rw [List.pairwise_append] at hsep
      exact apart_symm _ _
        ((List.pairwise_cons.mp (List.pairwise_cons.mp hsep.2.1).2).1 _ h1)
  unfold apart at hxn hnbx hnbn
  -- the cells of the state after the call
  have hread : ∀ a, (coalesce_blocks x t).mem.read a =
      if t.next n ≠ 0 ∧ a = t.next n + 16 then x
      else if a = x + 24 then t.next n
      else if a = x then add64 (t.size x) (t.size n) else t.mem.read a := by
    intro a
    have e1 : (t.setSize x (add64 (t.size x) (t.size (t.next x)))).next x = n := by
      simp only [State.next, State.setSize, Mem.read_write]
      rw [if_neg (by omega)]
      exact hnx
    have e2 : (t.setSize x (add64 (t.size x) (t.size (t.next x)))).next n = t.next n := by
      simp only [State.next, State.setSize, Mem.read_write]
      rw [if_neg (by omega)]
    have e3 : ((t.setSize x (add64 (t.size x) (t.size (t.next x)))).setNext x (t.next n)).next x
        = t.next n := by
      simp only [State.next, State.setNext, Mem.read_write, if_true]
    unfold coalesce_blocks
    simp only [e1, e2, e3]
    by_cases hz : t.next n = 0
    · rw [if_neg (not_not.mpr hz), if_neg (fun hc => hc.1 hz)]
      simp only [State.setSize, State.setNext, Mem.read_write, hnx, OFF_NEXT, OFF_SIZE,
        Nat.add_zero]
    · rw [if_pos hz]
      simp only [State.setSize, State.setNext, State.setPrev, Mem.read_write, hnx, OFF_NEXT,
        OFF_SIZE, OFF_PREV, Nat.add_zero, ne_eq, hz, not_false_eq_true, true_and]
  have hcell : ∀ y ∈ la ++ x :: n :: lb, ∀ k, k < 32 →
      (coalesce_blocks x t).mem.read (y + k) =
        if t.next n = y ∧ k = 16 then x
        else if y = x ∧ k = 24 then t.next n
        else if y = x ∧ k = 0 then add64 (t.size x) (t.size n) else t.mem.read (y + k) := by
    intro y hy k hk
    have hy0 := hall y hy
    have hyx := pairApart y hy x hxm
    have hynb : t.next n = 0 ∨ y = t.next n ∨ apart y (t.next n) := by
      rcases hnbm with h0 | h1
      · exact Or.inl h0
      · exact Or.inr (pairApart y hy _ h1)
    unfold apart at hyx hynb
    rw [hread]
    by_cases c1 : t.next n = y ∧ k = 16
    · rw [if_pos c1, if_pos ⟨by rw [c1.1]; exact hy0, by rw [c1.1, c1.2]⟩]
    · rw [if_neg c1, if_neg (by omega)]
      by_cases c2 : y = x ∧ k = 24
      · rw [if_pos c2, if_pos (by omega)]
      · rw [if_neg c2, if_neg (by omega)]
        by_cases c3 : y = x ∧ k = 0
        · rw [if_pos c3, if_pos (by omega)]
        · rw [if_neg c3, if_neg (by omega)]
  have hmem12 : ∀ y ∈ (la ++ [x]) ++ lb, y ∈ la ++ x :: n :: lb := by
    intro y hy
    rcases List.mem_append.mp hy with h1 | h1
    · rcases List.mem_append.mp h1 with h2 | h2
      · exact List.mem_append_left _ h2
      · rw [List.mem_singleton.mp h2]
        exact hxm
    · exact List.mem_append_right _ (List.mem_cons_of_mem x (List.mem_cons_of_mem n h1))
  have hne_n : ∀ y ∈ (la ++ [x]) ++ lb, y ≠ n := by
    intro y hy
    unfold Sep at hsep2
    rw [List.pairwise_append] at hsep2
    rcases List.mem_append.mp hy with h1 | h1
    · exact apart_ne _ _ (hsep2.2.2 y h1 n (List.mem_cons_self n lb))
    · exact (apart_ne _ _ ((List.pairwise_cons.mp hsep2.2.1).1 y h1)).symm
  refine ⟨?_, ?_, ?_, ?_, ?_, ?_, ?_, ?_, ?_, ?_⟩
  · have hq : (0 : Nat) ∉ (la ++ [x]) ++ n :: lb := by
      rw [← hlist]
      exact fun h0 => hall 0 h0 rfl
    have hu := linked_unlink t (coalesce_blocks x t) n (t.next n) x lb rfl hpn
      (la ++ [x]) 0 h hl2 hsep2 hq ?_ ?_
    · rw [if_neg (by simp)] at hu
      have e : (la ++ [x]) ++ lb = la ++ x :: lb := by simp
      rw [← e]
      exact hu
    · intro y hy
      have hc : (coalesce_blocks x t).prev y = _ := hcell y (hmem12 y hy) 16 (by decide)
      rw [hc]
      by_cases c : y = t.next n
      · rw [if_pos c, if_pos ⟨c.symm, rfl⟩]
      · rw [if_neg c, if_neg (fun hc => c hc.1.symm), if_neg (by omega), if_neg (by omega)]
        rfl
    · intro y hy
      have hc : (coalesce_blocks x t).next y = _ := hcell y (hmem12 y hy) 24 (by decide)
      rw [hc, if_neg (by omega)]
      by_cases c : y = x
      · rw [if_pos c, if_pos ⟨c, rfl⟩]
      · rw [if_neg c, if_neg (fun hc => c hc.1), if_neg (fun hc => c hc.1)]
        rfl
  · have hc : (coalesce_blocks x t).size x = _ := hcell x hxm 0 (by decide)
    rw [hc, if_neg (by omega), if_neg (by omega), if_pos ⟨rfl, rfl⟩]
  · have hc : (coalesce_blocks x t).status x = _ := hcell x hxm 8 (by decide)
    rw [hc, if_neg (by omega), if_neg (by omega), if_neg (by omega)]
    rfl
  · have hc : (coalesce_blocks x t).status n = _ := hcell n hnm 8 (by decide)
    rw [hc, if_neg (by omega), if_neg (by omega), if_neg (by omega)]
    rfl
  · have hc : (coalesce_blocks x t).prev x = _ := hcell x hxm 16 (by decide)
    have hne : ¬ (t.next n = x ∧ 16 = 16) := by
      intro hc2
      rcases hnbx with h0 | h1
      · exact hx0 (hc2.1.symm.trans h0)
      · omega
    rw [hc, if_neg hne, if_neg (by omega), if_neg (by omega)]
    rfl
  · intro y hy
    have hym : y ∈ la ++ x :: n :: lb := by
      rcases List.mem_append.mp hy with h1 | h1
      · exact List.mem_append_left _ h1
      · exact List.mem_append_right _ (List.mem_cons_of_mem x (List.mem_cons_of_mem n h1))
    have hyx : y ≠ x := by
      unfold Sep at hsep
      rw [List.pairwise_append] at hsep
      rcases List.mem_append.mp hy with h1 | h1
      · exact apart_ne _ _ (hsep.2.2 y h1 x (List.mem_cons_self x _))
      · exact (apart_ne _ _ ((List.pairwise_cons.mp hsep.2.1).1 y
          (List.mem_cons_of_mem n h1))).symm
    have hc1 : (coalesce_blocks x t).size y = _ := hcell y hym 0 (by decide)
    have hc2 : (coalesce_blocks x t).status y = _ := hcell y hym 8 (by decide)
    rw [if_neg (by omega), if_neg (by omega), if_neg (fun hc => hyx hc.1)] at hc1
    rw [if_neg (by omega), if_neg (by omega), if_neg (by omega)] at hc2
    exact ⟨hc1, hc2⟩
  · exact (coalesce_frame x t).1
  · exact (coalesce_frame x t).2.1
  · exact (coalesce_frame x t).2.2.1
  · exact (coalesce_frame x t).2.2.2

/-! ## Lists of status values -/

theorem noAdjZero_cons_cons (a b : Nat) (l : List Nat) :
    noAdjZero (a :: b :: l) ↔ ¬ (a = 0 ∧ b = 0) ∧ noAdjZero (b :: l) := Iff.rfl

theorem noAdjZero_single (a : Nat) : noAdjZero [a] := trivial

/-- A list has no two zeros in a row when its part up to an entry and its part
from that entry on have none. -/
theorem noAdjZero_split : ∀ (A : List Nat) (x : Nat) (C : List Nat),
    noAdjZero (A ++ x :: C) ↔ noAdjZero (A ++ [x]) ∧ noAdjZero (x :: C)
  | [], x, C => by
    rw [List.nil_append, List.nil_append]
    exact ⟨fun h => ⟨trivial, h⟩, fun h => h.2⟩
  | [a], x, C => by
    show noAdjZero (a :: x :: C) ↔ noAdjZero (a :: x :: []) ∧ noAdjZero (x :: C)
    rw [noAdjZero_cons_cons, noAdjZero_cons_cons]
    exact ⟨fun h => ⟨⟨h.1, trivial⟩, h.2⟩, fun h => ⟨h.1.1, h.2⟩⟩
  | a :: a2 :: A, x, C => by
    show noAdjZero (a :: a2 :: (A ++ x :: C)) ↔
      noAdjZero (a :: a2 :: (A ++ [x])) ∧ noAdjZero (x :: C)
    rw [noAdjZero_cons_cons, noAdjZero_cons_cons]
    have ih := noAdjZero_split (a2 :: A) x C
    rw [List.cons_append, List.cons_append] at ih
    rw [ih]
    exact ⟨fun h => ⟨⟨h.1, h.2.1⟩, h.2.2⟩, fun h => ⟨h.1.1, h.1.2, h.2⟩⟩

/-- Dropping the last entry. -/
theorem noAdjZero_init : ∀ (A : List Nat) (x : Nat), noAdjZero (A ++ [x]) → noAdjZero A
  | [], _, _ => trivial
  | [_], _, _ => trivial
  | a :: a2 :: A, x, h => by
    have h1 : noAdjZero (a :: a2 :: (A ++ [x])) := h
    rw [noAdjZero_cons_cons] at h1 ⊢
    exact ⟨h1.1, noAdjZero_init (a2 :: A) x h1.2⟩

/-- Replacing a last entry by zero behind a non-zero entry. -/
theorem noAdjZero_snoc_zero : ∀ (A : List Nat) (x : Nat),
    noAdjZero (A ++ [x]) → A.getLast? ≠ some 0 → noAdjZero (A ++ [0])
  | [], _, _, _ => trivial
  | [a], x, _, hlast => by
    show noAdjZero (a :: 0 :: [])
    rw [noAdjZero_cons_cons]
    refine ⟨fun hc => hlast ?_, trivial⟩
    rw [hc.1]
    rfl
  | a :: a2 :: A, x, h, hlast => by
    have h1 : noAdjZero (a :: a2 :: (A ++ [x])) := h
    show noAdjZero (a :: a2 :: (A ++ [0]))
    rw [noAdjZero_cons_cons] at h1 ⊢
    refine ⟨h1.1, noAdjZero_snoc_zero (a2 :: A) x h1.2 ?_⟩
    rw [List.getLast?_cons_cons] at hlast
    exact hlast

/-- Replacing a first entry by zero in front of a non-zero entry. -/
theorem noAdjZero_cons_zero (x : Nat) (B : List Nat)
    (h : noAdjZero (x :: B)) (hhead : B.head? ≠ some 0) : noAdjZero (0 :: B) := by
  cases B with
  | nil => trivial
  | cons c B =>
    rw [noAdjZero_cons_cons] at h ⊢
    refine ⟨fun hc => hhead ?_, h.2⟩
    rw [hc.2]
    rfl

/-- Dropping a first entry. -/
theorem noAdjZero_tail (x : Nat) (B : List Nat) (h : noAdjZero (x :: B)) : noAdjZero B := by
  cases B with
  | nil => trivial
  | cons c B => exact ((noAdjZero_cons_cons x c B).mp h).2

/-! ## Sums of sizes -/

theorem sizeSum_cons (s : State) (x : Nat) (l : List Nat) :
    sizeSum s (x :: l) = s.size x + sizeSum s l := by
  unfold sizeSum
  rw [List.map_cons, List.sum_cons]

theorem sizeSum_append (s : State) (l1 l2 : List Nat) :
    sizeSum s (l1 ++ l2) = sizeSum s l1 + sizeSum s l2 := by
  unfold sizeSum
  rw [List.map_append, List.sum_append]

theorem sizeSum_nil (s : State) : sizeSum s [] = 0 := rfl

/-! ## The two merges of `os_free` -/

/-- The store `b->status = 0` on a block of a well-linked list of
non-overlapping headers changes that one field. -/
theorem setStatus_linked (s : State) (h b v : Nat) (l : List Nat)
    (hl : Linked s 0 h l) (hsep : Sep l) (hb : b ∈ l) :
    Linked (s.setStatus b v) 0 h l ∧
    (∀ y ∈ l, (s.setStatus b v).size y = s.size y ∧ (s.setStatus b v).prev y = s.prev y ∧
      (s.setStatus b v).next y = s.next y ∧
      (s.setStatus b v).status y = if y = b then v else s.status y) := by
  have hM : META_SIZE = 32 := rfl
  have hcell : ∀ y ∈ l, ∀ k, k < 32 →
      (s.setStatus b v).mem.read (y + k) = if y = b ∧ k = 8 then v else s.mem.read (y + k) := by
    intro y hy k hk
    have hyb := sep_apart l hsep y b hy hb
    unfold apart at hyb
    simp only [State.setStatus, Mem.read_write, OFF_STATUS]
    by_cases c : y = b ∧ k = 8
    · rw [if_pos c, if_pos (by omega)]
    · rw [if_neg c, if_neg (by omega)]
  have hfields : ∀ y ∈ l, (s.setStatus b v).size y = s.size y ∧
      (s.setStatus b v).prev y = s.prev y ∧ (s.setStatus b v).next y = s.next y ∧
      (s.setStatus b v).status y = if y = b then v else s.status y := by
    intro y hy
    have h0 : (s.setStatus b v).size y = _ := hcell y hy 0 (by decide)
    have h16 : (s.setStatus b v).prev y = _ := hcell y hy 16 (by decide)
    have h24 : (s.setStatus b v).next y = _ := hcell y hy 24 (by decide)
    have h8 : (s.setStatus b v).status y = _ := hcell y hy 8 (by decide)
    rw [if_neg (by omega)] at h0 h16 h24
    refine ⟨h0, h16, h24, ?_⟩
    rw [h8]
    by_cases c : y = b
    · rw [if_pos c, if_pos ⟨c, rfl⟩]
    · rw [if_neg c, if_neg (fun hc => c hc.1)]
      rfl
  exact ⟨linked_congr s _ l 0 h (fun y hy => ⟨(hfields y hy).2.1, (hfields y hy).2.2.1⟩) hl,
    hfields⟩

/-- The first half of the heap branch of `os_free` (lines 165-169) on a block
`b` of a well-linked list: `b` is marked FREE and absorbs its successor when
that one is FREE. -/
theorem free_stage_next (s : State) (b : Nat) (l1 l2 : List Nat)
    (hl : Linked s 0 s.brk_head (l1 ++ b :: l2)) (hsep : Sep (l1 ++ b :: l2))
    (hsum : sizeSum s (l1 ++ b :: l2) < W) :
    ∃ s1 : State,
      (if (s.setStatus b 0).next b ≠ 0 ∧
          (s.setStatus b 0).status ((s.setStatus b 0).next b) = 0
        then coalesce_blocks b (s.setStatus b 0) else s.setStatus b 0) = s1 ∧
      Linked s1 0 s.brk_head (l1 ++ b :: (if nextFree s b then l2.tail else l2)) ∧
      s1.status b = 0 ∧
      s1.size b = s.size b + (if nextFree s b then s.size (s.next b) else 0) ∧
      s1.prev b = s.prev b ∧
      (∀ y ∈ l1 ++ (if nextFree s b then l2.tail else l2),
        s1.size y = s.size y ∧ s1.status y = s.status y) ∧
      s1.brk_head = s.brk_head ∧ s1.map_head = s.map_head ∧ s1.brk = s.brk ∧
      s1.maps = s.maps := by
  have hbm : b ∈ l1 ++ b :: l2 := List.mem_append_right _ (List.mem_cons_self b l2)
  obtain ⟨hl0, hf0⟩ := setStatus_linked s s.brk_head b 0 _ hl hsep hbm
  obtain ⟨hmid, _, _⟩ := linked_mid s b l2 l1 0 s.brk_head hl
  have hb0 := hf0 b hbm
  rw [if_pos rfl] at hb0
  have hnotb : ∀ y ∈ l1 ++ l2, y ≠ b := by
    intro y hy
    unfold Sep at hsep
    rw [List.pairwise_append] at hsep
    rcases List.mem_append.mp hy with h1 | h1
    · exact apart_ne _ _ (hsep.2.2 y h1 b (List.mem_cons_self b l2))
    · exact (apart_ne _ _ ((List.pairwise_cons.mp hsep.2.1).1 y h1)).symm
  have hmem12 : ∀ y ∈ l1 ++ l2, y ∈ l1 ++ b :: l2 := by
    intro y hy
    rcases List.mem_append.mp hy with h1 | h1
    · exact List.mem_append_left _ h1
    · exact List.mem_append_right _ (List.mem_cons_of_mem b h1)
  have hother : ∀ y ∈ l1 ++ l2, (s.setStatus b 0).size y = s.size y ∧
      (s.setStatus b 0).status y = s.status y := by
    intro y hy
    have h := hf0 y (hmem12 y hy)
    rw [if_neg (hnotb y hy)] at h
    exact ⟨h.1, h.2.2.2⟩
  cases l2 with
  | nil =>
    have hn : s.next b = 0 := hmid
    have hnf : ¬ nextFree s b := fun hc => hc.1 hn
    have hc : ¬ ((s.setStatus b 0).next b ≠ 0 ∧
        (s.setStatus b 0).status ((s.setStatus b 0).next b) = 0) := by
      rw [hb0.2.2.1, hn]
      exact fun hc => hc.1 rfl
    refine ⟨s.setStatus b 0, if_neg hc, ?_, hb0.2.2.2, ?_, hb0.2.1, ?_, rfl, rfl, rfl, rfl⟩
    · rw [if_neg hnf]
      exact hl0
    · rw [if_neg hnf, hb0.1]
      rfl
    · rw [if_neg hnf]
      exact hother
  | cons n l2 =>
    rw [linked_cons] at hmid
    have hn : s.next b = n := hmid.1
    have hn0 : n ≠ 0 := hmid.2.1
    have hnm : n ∈ l1 ++ (n :: l2) := List.mem_append_right _ (List.mem_cons_self n l2)
    have hsn := hother n hnm
    by_cases hfree : s.status n = 0
    · have hnf : nextFree s b := ⟨by rw [hn]; exact hn0, by rw [hn]; exact hfree⟩
      have hc : (s.setStatus b 0).next b ≠ 0 ∧
          (s.setStatus b 0).status ((s.setStatus b 0).next b) = 0 := by
        rw [hb0.2.2.1, hn, hsn.2]
        exact ⟨hn0, hfree⟩
      obtain ⟨c1, c2, c3, _, c5, c6, c7, c8, c9, c10⟩ :=
        coalesce_linked (s.setStatus b 0) s.brk_head b n l1 l2 hl0 hsep
      have hle : s.size b + s.size n < W := by
        rw [sizeSum_append, sizeSum_cons, sizeSum_cons] at hsum
        omega
      refine ⟨coalesce_blocks b (s.setStatus b 0), if_pos hc, ?_, ?_, ?_, ?_, ?_, c7, c8, c9,
        c10⟩
      · rw [if_pos hnf]
        exact c1
      · rw [c3]
        exact hb0.2.2.2
      · rw [if_pos hnf, c2, hb0.1, hsn.1, hn]
        exact add64_eq _ _ hle
      · rw [c5]
        exact hb0.2.1
      · rw [if_pos hnf]
        intro y hy
        have hy2 : y ∈ l1 ++ (n :: l2) := by
          rcases List.mem_append.mp hy with h1 | h1
          · exact List.mem_append_left _ h1
          · exact List.mem_append_right _ (List.mem_cons_of_mem n h1)
        have h1 := c6 y hy
        have h2 := hother y hy2
        exact ⟨h1.1.trans h2.1, h1.2.trans h2.2⟩
    · have hnf : ¬ nextFree s b := fun hc => hfree (by rw [← hn]; exact hc.2)
      have hc : ¬ ((s.setStatus b 0).next b ≠ 0 ∧
          (s.setStatus b 0).status ((s.setStatus b 0).next b) = 0) := by
        rw [hb0.2.2.1, hn, hsn.2]
        exact fun hc => hfree hc.2
      refine ⟨s.setStatus b 0, if_neg hc, ?_, hb0.2.2.2, ?_, hb0.2.1, ?_, rfl, rfl, rfl, rfl⟩
      · rw [if_neg hnf]
        exact hl0
      · rw [if_neg hnf, hb0.1]
        rfl
      · rw [if_neg hnf]
        exact hother

/-- The second half of the heap branch of `os_free` (lines 172-173) on a block
`b` of a well-linked list: `b` is absorbed by its predecessor when that one is
FREE. -/
theorem free_stage_prev (t : State) (h b : Nat) (l1 rest : List Nat)
    (hl : Linked t 0 h (l1 ++ b :: rest)) (hsep : Sep (l1 ++ b :: rest))
    (hsum : prevFree t b → t.size (t.prev b) + t.size b < W) :
    ∃ t2 : State,
      (if t.prev b ≠ 0 ∧ t.status (t.prev b) = 0 then coalesce_blocks (t.prev b) t else t) = t2 ∧
      Linked t2 0 h ((if prevFree t b then l1 else l1 ++ [b]) ++ rest) ∧
      (prevFree t b → t.prev b ∈ l1) ∧
      t2.status b = t.status b ∧
      t2.status (mergedBlock t b) = t.status (mergedBlock t b) ∧
      t2.size (mergedBlock t b) = (if prevFree t b then t.size (t.prev b) else 0) + t.size b ∧
      (∀ y ∈ (if prevFree t b then l1 else l1 ++ [b]) ++ rest, y ≠ mergedBlock t b →
        t2.size y = t.size y ∧ t2.status y = t.status y) ∧
      t2.brk_head = t.brk_head ∧ t2.map_head = t.map_head ∧ t2.brk = t.brk ∧
      t2.maps = t.maps := by
  obtain ⟨_, hprev, _⟩ := linked_mid t b rest l1 0 h hl
  have hall := linked_ne_zero t _ 0 h hl
  rcases List.eq_nil_or_concat l1 with e | ⟨l0, p, e⟩
  · subst e
    have hp : t.prev b = 0 := hprev
    have hpf : ¬ prevFree t b := fun hc => hc.1 hp
    have hk : mergedBlock t b = b := if_neg hpf
    refine ⟨t, if_neg hpf, ?_, fun hc => absurd hc hpf, rfl, rfl, ?_, ?_, rfl, rfl, rfl, rfl⟩
    · rw [if_neg hpf]
      exact hl
    · rw [hk, if_neg hpf, Nat.zero_add]
    · intro y _ _
      exact ⟨rfl, rfl⟩
  · rw [List.concat_eq_append] at e
    subst e
    have hp : t.prev b = p := by
      rw [hprev]
      simp
    have hpm : p ∈ (l0 ++ [p]) ++ b :: rest := by simp
    have hp0 : p ≠ 0 := hall p hpm
    have hlist : (l0 ++ [p]) ++ b :: rest = l0 ++ p :: b :: rest := by simp
    have hlist2 : (l0 ++ [p]) ++ rest = l0 ++ p :: rest := by simp
    by_cases hfree : t.status p = 0
    · have hpf : prevFree t b := ⟨by rw [hp]; exact hp0, by rw [hp]; exact hfree⟩
      have hk : mergedBlock t b = p := (if_pos hpf).trans hp
      have hle := hsum hpf
      rw [hlist] at hl hsep
      obtain ⟨c1, c2, c3, c4, _, c6, c7, c8, c9, c10⟩ := coalesce_linked t h p b l0 rest hl hsep
      have hcond : t.prev b ≠ 0 ∧ t.status (t.prev b) = 0 := hpf
      refine ⟨coalesce_blocks p t, ?_, ?_, ?_, c4, ?_, ?_, ?_, c7, c8, c9, c10⟩
      · rw [if_pos hcond, hp]
      · rw [if_pos hpf, hlist2]
        exact c1
      · intro _
        rw [hp]
        simp
      · rw [hk]
        exact c3
      · rw [hk, if_pos hpf, c2, hp]
        rw [hp] at hle
        exact add64_eq _ _ hle
      · rw [if_pos hpf, hk, hlist2]
        intro y hy hyp
        have hy2 : y ∈ l0 ++ rest := by
          rcases List.mem_append.mp hy with h1 | h1
          · exact List.mem_append_left _ h1
          · rcases List.mem_cons.mp h1 with h2 | h2
            · exact absurd h2 hyp
            · exact List.mem_append_right _ h2
        exact c6 y hy2
    · have hpf : ¬ prevFree t b := fun hc => hfree (by rw [← hp]; exact hc.2)
      have hk : mergedBlock t b = b := if_neg hpf
      refine ⟨t, if_neg hpf, ?_, fun hc => absurd hc hpf, rfl, rfl, ?_, ?_, rfl, rfl, rfl, rfl⟩
      · rw [if_neg hpf]
        simp only [List.append_assoc, List.singleton_append]
        simp only [List.append_assoc, List.singleton_append] at hl
        exact hl
      · rw [hk, if_neg hpf, Nat.zero_add]
      · intro y _ _
        exact ⟨rfl, rfl⟩

/-- The successor of a block of a well-linked list, as `os_free` tests it. -/
theorem next_cases (s : State) (h b : Nat) (l1 l2 : List Nat)
    (hl : Linked s 0 h (l1 ++ b :: l2)) :
    (nextFree s b → ∃ l, l2 = s.next b :: l) ∧
    (¬ nextFree s b → (l2.map s.status).head? ≠ some 0) := by
  obtain ⟨hmid, _, _⟩ := linked_mid s b l2 l1 0 h hl
  cases l2 with
  | nil =>
    have hn : s.next b = 0 := hmid
    exact ⟨fun hc => absurd hn hc.1, fun _ hc => by simp at hc⟩
  | cons n l2 =>
    rw [linked_cons] at hmid
    refine ⟨fun _ => ⟨l2, by rw [hmid.1]⟩, ?_⟩
    intro hnf hc
    have e : s.status n = 0 := by
      simp only [List.map_cons, List.head?_cons, Option.some.injEq] at hc
      exact hc
    exact hnf ⟨by rw [hmid.1]; exact hmid.2.1, by rw [hmid.1]; exact e⟩

/-- The predecessor of a block of a well-linked list, as `os_free` tests it. -/
theorem prev_cases (s : State) (h b : Nat) (l1 l2 : List Nat)
    (hl : Linked s 0 h (l1 ++ b :: l2)) :
    (prevFree s b → ∃ l, l1 = l ++ [s.prev b]) ∧
    (¬ prevFree s b → (l1.map s.status).getLast? ≠ some 0) := by
  obtain ⟨_, hprev, _⟩ := linked_mid s b l2 l1 0 h hl
  have hall := linked_ne_zero s _ 0 h hl
  rcases List.eq_nil_or_concat l1 with e | ⟨l0, p, e⟩
  · subst e
    have hp : s.prev b = 0 := hprev
    exact ⟨fun hc => absurd hp hc.1, fun _ hc => by simp at hc⟩
  · rw [List.concat_eq_append] at e
    subst e
    have hp : s.prev b = p := by
      rw [hprev]
      simp
    have hp0 : p ≠ 0 := hall p (by simp)
    refine ⟨fun _ => ⟨l0, by rw [hp]⟩, ?_⟩
    intro hpf hc
    have e : s.status p = 0 := by
      simp only [List.map_append, List.map_cons, List.map_nil, List.getLast?_append,
        List.getLast?_singleton] at hc
      exact Option.some.inj hc
    exact hpf ⟨by rw [hp]; exact hp0, by rw [hp]; exact e⟩

/-- The sizes that merge are sizes of different blocks of the list. -/
theorem mergedSize_le (s : State) (h b : Nat) (l1 l2 : List Nat)
    (hl : Linked s 0 h (l1 ++ b :: l2)) : mergedSize s b ≤ sizeSum s (l1 ++ b :: l2) := by
  obtain ⟨hN, _⟩ := next_cases s h b l1 l2 hl
  obtain ⟨hP, _⟩ := prev_cases s h b l1 l2 hl
  unfold mergedSize
  rw [sizeSum_append, sizeSum_cons]
  have h1 : (if prevFree s b then s.size (s.prev b) else 0) ≤ sizeSum s l1 := by
    by_cases c : prevFree s b
    · obtain ⟨l, e⟩ := hP c
      rw [if_pos c, e, sizeSum_append, sizeSum_cons, sizeSum_nil]
      omega
    · rw [if_neg c]
      exact Nat.zero_le _
  have h2 : (if nextFree s b then s.size (s.next b) else 0) ≤ sizeSum s l2 := by
    by_cases c : nextFree s b
    · obtain ⟨l, e⟩ := hN c
      rw [if_pos c, e, sizeSum_cons]
      omega
    · rw [if_neg c]
      exact Nat.zero_le _
  omega

/-- A non-null `prev` field of a block of a well-linked list names a block
before it. -/
theorem prev_mem (s : State) (h b : Nat) (l1 l2 : List Nat)
    (hl : Linked s 0 h (l1 ++ b :: l2)) (hp : s.prev b ≠ 0) : s.prev b ∈ l1 := by
  obtain ⟨_, hprev, _⟩ := linked_mid s b l2 l1 0 h hl
  rcases List.eq_nil_or_concat l1 with e | ⟨l0, p, e⟩
  · subst e
    exact absurd hprev hp
  · rw [List.concat_eq_append] at e
    subst e
    rw [hprev]
    simp

/-- The status values along a list of non-overlapping headers in which one
block has become FREE and the others kept their status. -/
theorem status_map_split (t s : State) (k : Nat) (pre rest : List Nat)
    (hsep : Sep (pre ++ k :: rest))
    (hstatus : ∀ y ∈ pre ++ k :: rest, t.status y = if y = k then 0 else s.status y) :
    (pre ++ k :: rest).map t.status = pre.map s.status ++ 0 :: rest.map s.status := by
  unfold Sep at hsep
  rw [List.pairwise_append] at hsep
  have hk : t.status k = 0 := by
    rw [hstatus k (List.mem_append_right _ (List.mem_cons_self k rest)), if_pos rfl]
  have hpre : pre.map t.status = pre.map s.status := by
    refine List.map_congr_left ?_
    intro y hy
    have hne : y ≠ k := apart_ne _ _ (hsep.2.2 y hy k (List.mem_cons_self k rest))
    rw [hstatus y (List.mem_append_left _ hy), if_neg hne]
  have hrest : rest.map t.status = rest.map s.status := by
    refine List.map_congr_left ?_
    intro y hy
    have hne : y ≠ k := (apart_ne _ _ ((List.pairwise_cons.mp hsep.2.1).1 y hy)).symm
    rw [hstatus y (List.mem_append_right _ (List.mem_cons_of_mem k hy)), if_neg hne]
  rw [List.map_append, List.map_cons, hpre, hrest, hk]

/-! ## More sessions -/

theorem reachable_unmergedConfig : Reachable unmergedConfig :=
  reachable_run unmergedSession splitConfig unmergedConfig reachable_splitConfig (by decide)

theorem reachable_oneMapConfig : Reachable oneMapConfig :=
  reachable_run oneMapSession startConfig oneMapConfig reachable_start (by decide)

theorem reachable_overrunConfig : Reachable overrunConfig :=
  reachable_run overrunSession oneMapConfig overrunConfig reachable_oneMapConfig (by decide)

theorem reachable_eightyConfig : Reachable eightyConfig :=
  reachable_run eightySession startConfig eightyConfig reachable_start (by decide)

/-! ## Checked calls -/

theorem access_returned {α : Type} (a : Nat) (s : State) (k : Option (Outcome α)) (r : α)
    (h : access a s k = some (Outcome.returned r)) : k = some (Outcome.returned r) := by
  unfold access at h
  split at h
  · exact h
  · cases h

theorem andThen_returned {α β : Type} (x : Option (Outcome α)) (k : α → Option (Outcome β))
    (r : β) (h : andThen x k = some (Outcome.returned r)) :
    ∃ v, x = some (Outcome.returned v) ∧ k v = some (Outcome.returned r) := by
  unfold andThen at h
  split at h
  · cases h
  · cases h
  · exact ⟨_, rfl, h⟩

theorem last_from_checked_returned (s : State) (fuel : Nat) :
    ∀ last r, last_from_checked s fuel last = some (Outcome.returned r) →
      last_from s fuel last = some r := by
  induction fuel with
  | zero => intro last r h; cases h
  | succ fuel ih =>
    intro last r h
    unfold last_from_checked at h
    have h := access_returned _ _ _ _ h
    unfold last_from
    split at h
    · rename_i hn
      rw [if_pos hn]
      exact ih _ _ h
    · rename_i hn
      rw [if_neg hn]
      cases h
      rfl

theorem find_best_fit_from_checked_returned (s : State) (size fuel : Nat) :
    ∀ find r, find_best_fit_from_checked s size fuel find = some (Outcome.returned r) →
      find_best_fit_from s size fuel find = some r := by
  induction fuel with
  | zero => intro find r h; cases h
  | succ fuel ih =>
    intro find r h
    unfold find_best_fit_from_checked at h
    unfold find_best_fit_from
    split at h
    · rename_i h0
      rw [if_pos h0]
      cases h
      rfl
    · rename_i h0
      rw [if_neg h0]
      have h := access_returned _ _ _ _ h
      split at h
      · rename_i hs
        have h := access_returned _ _ _ _ h
        split at h
        · rename_i hst
          rw [if_pos ⟨hs, hst⟩]
          cases h
          rfl
        · rename_i hst
          rw [if_neg (fun hc => hst hc.2)]
          exact ih _ _ (access_returned _ _ _ _ h)
      · rename_i hs
        rw [if_neg (fun hc => hs hc.1)]
        exact ih _ _ (access_returned _ _ _ _ h)

theorem preallocate_checked_returned (s t : State)
    (h : preallocate_checked s = some (Outcome.returned t)) : preallocate s = t := by
  unfold preallocate_checked at h
  dsimp only at h
  have h := access_returned _ _ _ _ h
  have h := access_returned _ _ _ _ h
  have h := access_returned _ _ _ _ h
  have h := access_returned _ _ _ _ h
  cases h
  rfl

theorem map_block_checked_returned (fuel res new_size : Nat) (s : State) (r : Nat × State)
    (h : map_block_checked fuel res new_size s = some (Outcome.returned r)) :
    map_block fuel res new_size s = some r := by
  unfold map_block_checked at h
  dsimp only at h
  have h := access_returned _ _ _ _ h
  have h := access_returned _ _ _ _ h
  unfold map_block
  dsimp only
  split at h
  · rename_i h0
    rw [if_pos h0]
    have h := access_returned _ _ _ _ h
    have h := access_returned _ _ _ _ h
    cases h
    rfl
  · rename_i h0
    rw [if_neg h0]
    obtain ⟨last, hl, h⟩ := andThen_returned _ _ _ h
    rw [last_from_checked_returned _ _ _ _ hl]
    have h := access_returned _ _ _ _ h
    have h := access_returned _ _ _ _ h
    have h := access_returned _ _ _ _ h
    cases h
    rfl

theorem heap_block_checked_returned (fuel new_size : Nat) (s : State) (r : Nat × State)
    (h : heap_block_checked fuel new_size s = some (Outcome.returned r)) :
    heap_block fuel new_size s = some r := by
  unfold heap_block_checked at h
  obtain ⟨s1, hs1, h⟩ := andThen_returned _ _ _ h
  obtain ⟨best, hbest, h⟩ := andThen_returned _ _ _ h
  have e1 : (if s.brk_head = 0 then preallocate s else s) = s1 := by
    by_cases hb : s.brk_head = 0
    · rw [if_pos hb] at hs1 ⊢
      exact preallocate_checked_returned _ _ hs1
    · rw [if_neg hb] at hs1 ⊢
      cases hs1
      rfl
  unfold heap_block
  dsimp only
  rw [e1]
  unfold find_best_fit_checked at hbest
  unfold find_best_fit
  rw [find_best_fit_from_checked_returned _ _ _ _ _ hbest]
  dsimp only
  split at h
  · rename_i h0
    rw [if_pos h0]
    obtain ⟨final, hfinal, h⟩ := andThen_returned _ _ _ h
    rw [last_from_checked_returned _ _ _ _ hfinal]
    dsimp only at h ⊢
    have h := access_returned _ _ _ _ h
    split at h
    · rename_i hst
      rw [if_pos hst]
      have h := access_returned _ _ _ _ h
      have h := access_returned _ _ _ _ h
      cases h
      rfl
    · rename_i hst
      rw [if_neg hst]
      have h := access_returned _ _ _ _ h
      have h := access_returned _ _ _ _ h
      have h := access_returned _ _ _ _ h
      have h := access_returned _ _ _ _ h
      cases h
      rfl
  · rename_i h0
    rw [if_neg h0]
    dsimp only at h ⊢
    have h := access_returned _ _ _ _ h
    have h := access_returned _ _ _ _ h
    split at h
    · rename_i hsp
      rw [if_pos hsp]
      have h := access_returned _ _ _ _ h
      have h := access_returned _ _ _ _ h
      have h := access_returned _ _ _ _ h
      have h := access_returned _ _ _ _ h
      have h := access_returned _ _ _ _ h
      have h := access_returned _ _ _ _ h
      have h := access_returned _ _ _ _ h
      have h := access_returned _ _ _ _ h
      cases h
      rfl
    · rename_i hsp
      rw [if_neg hsp]
      cases h
      rfl

/-- A checked call of `os_malloc` that returns, returns what the call returns
when no access is checked. -/
theorem os_malloc_checked_returned (fuel res size : Nat) (s : State) (r : Nat × State)
    (h : os_malloc_checked fuel res size s = some (Outcome.returned r)) :
    os_malloc fuel res size s = some r := by
  unfold os_malloc_checked at h
  unfold os_malloc
  split at h
  · rename_i h0
    rw [if_pos h0]
    cases h
    rfl
  · rename_i h0
    rw [if_neg h0]
    dsimp only at h ⊢
    split at h
    · rename_i hn
      rw [if_pos hn]
      obtain ⟨v, hv, h⟩ := andThen_returned _ _ _ h
      rw [map_block_checked_returned _ _ _ _ _ hv]
      cases h
      rfl
    · rename_i hn
      rw [if_neg hn]
      obtain ⟨v, hv, h⟩ := andThen_returned _ _ _ h
      rw [heap_block_checked_returned _ _ _ _ hv]
      cases h
      rfl

/-! ## The claims -/

/-- C1, at a failing input: the configuration `cycleConfig` is reached from
the empty allocator by the nine calls of `cycleSession`, and there
`os_malloc(100)` does not return for any amount of fuel and any answer of the
kernel, because the heap list is cyclic and holds no free block of 136
bytes. -/
theorem c1_malloc_hangs_on_cyclic_heap :
    Reachable cycleConfig ∧ ∀ fuel res : Nat, os_malloc fuel res 100 cycleConfig.st = none := by
  refine ⟨reachable_cycleConfig, ?_⟩
  intro fuel res
  have hfind : find_best_fit fuel 136 cycleConfig.st = none := by
    unfold find_best_fit
    cases fuel with
    | zero => rfl
    | succ k =>
      have a0 : cycleConfig.st.size 1048576 = 80 := by decide
      have n0 : cycleConfig.st.next 1048576 = 1048656 := by decide
      have hb : cycleConfig.st.brk_head = 1048576 := rfl
      rw [hb]
      unfold find_best_fit_from
      rw [a0, n0, if_neg (by decide), if_neg (by decide)]
      exact (cycle_search_never_ends k).1
  have hsz : ALIGN (add64 100 META_SIZE) = 136 := by decide
  have hb : cycleConfig.st.brk_head ≠ 0 := by decide
  unfold os_malloc
  rw [if_neg (by decide), hsz]
  simp only [if_neg (by decide : ¬ (100 ≥ MMAP_THRESHOLD))]
  unfold heap_block
  simp only [if_neg hb, hfind]

/-- C2: for `n ≥ 128 KiB` with `n + headerSize + 7` below `2^64`, a well-linked
mapped list `l` of non-overlapping headers and a successful `mmap` whose region
at `res` overlaps none of them, `os_malloc n` returns `res + headerSize`; the
mapped list is `l` followed by the block at `res`, which has size
`align8 (n + headerSize)` and status 2; the blocks of `l` keep size and status;
the mapping of exactly that size is the one new mapping; `brk_head` and the
break are unchanged, and so is every cell outside the new region other than
the `next` field of the old last mapped block, so that every list of headers
outside the region that overlap no mapped header (the heap list) stays as it
was. -/
theorem c2_malloc_large_appends_mapping (s : State) (fuel res n : Nat) (l : List Nat)
    (hn : MMAP_THRESHOLD ≤ n) (hov : n + META_SIZE + 7 < W)
    (hl : Linked s 0 s.map_head l) (hsep : Sep l) (hfuel : l.length ≤ fuel)
    (hres : res ≠ 0) (hok : res ≠ MAP_FAILED)
    (hfresh : ∀ b ∈ l, b + META_SIZE ≤ res ∨ res + align8 (n + META_SIZE) ≤ b) :
    ∃ s1, os_malloc fuel res n s = some (res + META_SIZE, s1) ∧
      Linked s1 0 s1.map_head (l ++ [res]) ∧
      s1.size res = align8 (n + META_SIZE) ∧ s1.status res = 2 ∧
      (∀ b ∈ l, s1.size b = s.size b ∧ s1.status b = s.status b) ∧
      s1.maps = (res, align8 (n + META_SIZE)) :: s.maps ∧
      s1.brk_head = s.brk_head ∧ s1.brk = s.brk ∧
      (∀ a, (a < res ∨ res + align8 (n + META_SIZE) ≤ a) →
        (∀ x, l.getLast? = some x → a ≠ x + OFF_NEXT) → s1.mem.read a = s.mem.read a) ∧
      (∀ (hl : List Nat) (q p : Nat), Linked s q p hl →
        (∀ b ∈ hl, (b + META_SIZE ≤ res ∨ res + align8 (n + META_SIZE) ≤ b) ∧
          ∀ m ∈ l, apart b m) →
        Linked s1 q p hl ∧ ∀ b ∈ hl, s1.size b = s.size b ∧ s1.status b = s.status b) := by
  have hns : ALIGN (add64 n META_SIZE) = align8 (n + META_SIZE) := ALIGN_add64 n hov
  have hge := align8_ge (n + META_SIZE)
  have hM : META_SIZE = 32 := rfl
  have hN : OFF_NEXT = 24 := rfl
  have hhdr : ∀ b ∈ l, apart b res := by
    intro b hb
    have h := hfresh b hb
    unfold apart
    omega
  obtain ⟨s1, hmb, hlk, hsz, hst, hbh, hbrk, hmaps, hframe⟩ :=
    map_block_spec s fuel res (align8 (n + META_SIZE)) l hl hsep hfuel hres hhdr
      (fun _ => hfresh)
  have hn0 : n ≠ 0 := by unfold MMAP_THRESHOLD at hn; omega
  have hframe2 : ∀ a, (a < res ∨ res + align8 (n + META_SIZE) ≤ a) →
      (∀ x, l.getLast? = some x → a ≠ x + OFF_NEXT) → s1.mem.read a = s.mem.read a := by
    intro a ha hx
    refine hframe a ?_ (Or.inr ha) hx
    omega
  refine ⟨s1, ?_, hlk, hsz, hst, ?_, ?_, hbh, hbrk, hframe2, ?_⟩
  · unfold os_malloc
    rw [if_neg hn0]
    simp only [hns, ge_iff_le, hn, if_true, hmb]
  · intro b hb
    have h := hfresh b hb
    have hcell : ∀ k, k < 16 → s1.mem.read (b + k) = s.mem.read (b + k) := by
      intro k hk
      refine hframe2 (b + k) ?_ ?_
      · omega
      · intro x hx
        have hbx := sep_apart l hsep b x hb (List.mem_of_getLast?_eq_some hx)
        unfold apart at hbx
        omega
    exact ⟨hcell OFF_SIZE (by decide), hcell OFF_STATUS (by decide)⟩
  · rw [hmaps]
    unfold mmap
    rw [if_neg hok]
  · intro hlist q p hlinked hout
    have hcell : ∀ b ∈ hlist, ∀ k, k < META_SIZE → s1.mem.read (b + k) = s.mem.read (b + k) := by
      intro b hb k hk
      have h := (hout b hb).1
      refine hframe2 (b + k) ?_ ?_
      · omega
      · intro x hx
        have hbx := (hout b hb).2 x (List.mem_of_getLast?_eq_some hx)
        unfold apart at hbx
        omega
    exact ⟨linked_congr s s1 hlist q p
        (fun b hb => ⟨hcell b hb OFF_PREV (by decide), hcell b hb OFF_NEXT (by decide)⟩) hlinked,
      fun b hb => ⟨hcell b hb OFF_SIZE (by decide), hcell b hb OFF_STATUS (by decide)⟩⟩

/-- A second request of 200000 bytes, with one mapping in the mapped list and
the next one placed at `0x80000000`. -/
theorem c2_witness :
    (MMAP_THRESHOLD ≤ 200000 ∧ 200000 + META_SIZE + 7 < W ∧
      Linked oneMapState 0 oneMapState.map_head [1073741824] ∧ Sep [1073741824] ∧
      [1073741824].length ≤ 1 ∧ (2147483648 : Nat) ≠ 0 ∧ 2147483648 ≠ MAP_FAILED ∧
      ∀ b ∈ [1073741824],
        b + META_SIZE ≤ 2147483648 ∨ 2147483648 + align8 (200000 + META_SIZE) ≤ b) ∧
    ∃ s1, os_malloc 1 2147483648 200000 oneMapState = some (2147483648 + META_SIZE, s1) ∧
      Linked s1 0 s1.map_head ([1073741824] ++ [2147483648]) ∧
      s1.size 2147483648 = align8 (200000 + META_SIZE) ∧ s1.status 2147483648 = 2 ∧
      (∀ b ∈ [1073741824], s1.size b = oneMapState.size b ∧ s1.status b = oneMapState.status b) ∧
      s1.maps = (2147483648, align8 (200000 + META_SIZE)) :: oneMapState.maps ∧
      s1.brk_head = oneMapState.brk_head ∧ s1.brk = oneMapState.brk ∧
      (∀ a, (a < 2147483648 ∨ 2147483648 + align8 (200000 + META_SIZE) ≤ a) →
        (∀ x, [1073741824].getLast? = some x → a ≠ x + OFF_NEXT) →
        s1.mem.read a = oneMapState.mem.read a) ∧
      (∀ (hl : List Nat) (q p : Nat), Linked oneMapState q p hl →
        (∀ b ∈ hl, (b + META_SIZE ≤ 2147483648 ∨
            2147483648 + align8 (200000 + META_SIZE) ≤ b) ∧
          ∀ m ∈ [1073741824], apart b m) →
        Linked s1 q p hl ∧
          ∀ b ∈ hl, s1.size b = oneMapState.size b ∧ s1.status b = oneMapState.status b) :=
  ⟨⟨by decide, by decide, by decide, by decide, by decide, by decide, by decide, by decide⟩,
    c2_malloc_large_appends_mapping oneMapState 1 2147483648 200000 [1073741824]
      (by decide) (by decide) (by decide) (by decide) (by decide) (by decide) (by decide)
      (by decide)⟩

/-- C3, at a failing input: in the reachable configuration `growConfig` the
client holds `1048608`, an allocated 40 byte block followed by a free 40 byte
block; `os_realloc` to 1000 bytes returns the same pointer, and the block it
points into has 80 bytes, 48 of them payload. -/
theorem c3_realloc_returns_short_block :
    Reachable growConfig ∧ 1048608 ∈ growConfig.live ∧
      growConfig.st.status (1048608 - META_SIZE) = 1 ∧
      (os_realloc 10 0 1048608 1000 growConfig.st).map
          (fun r => (r.1, r.2.size (r.1 - META_SIZE) - META_SIZE)) = some (1048608, 48) ∧
      48 < 1000 :=
  ⟨reachable_growConfig, by decide, by decide, by decide, by decide⟩

/-- C4, at a failing input: in the reachable configuration `splitConfig` the
client holds the payloads `1048672` and `1048712` of two allocated 40 byte
blocks, the second starting where the first ends; after both are released
`os_malloc(40 + 40 - 2 * headerSize)` returns a block at the old break and
the break has moved by 48 bytes. -/
theorem c4_adjacent_blocks_do_not_merge :
    Reachable splitConfig ∧ 1048672 ∈ splitConfig.live ∧ 1048712 ∈ splitConfig.live ∧
      splitConfig.st.status (1048672 - META_SIZE) = 1 ∧
      splitConfig.st.status (1048712 - META_SIZE) = 1 ∧
      splitConfig.st.size (1048672 - META_SIZE) = 40 ∧
      splitConfig.st.size (1048712 - META_SIZE) = 40 ∧
      (1048672 - META_SIZE) + 40 = 1048712 - META_SIZE ∧
      (os_free 1048712 (os_free 1048672 splitConfig.st)).brk = 1179648 ∧
      (os_malloc 10 0 (40 + 40 - 2 * META_SIZE)
          (os_free 1048712 (os_free 1048672 splitConfig.st))).map
        (fun r => (r.1, r.2.brk)) = some (1179648 + META_SIZE, 1179648 + 48) :=
  ⟨reachable_splitConfig, by decide, by decide, by decide, by decide, by decide, by decide,
    by decide, by decide, by decide⟩

/-- C5, at a failing input: `os_calloc(2^61 + 1, 8)` on the empty allocator
computes the product modulo `2^64`, which is 8, and returns the payload of a
40 byte block: 8 usable bytes for a request of `2^64 + 8`. -/
theorem c5_calloc_product_wraps :
    2305843009213693953 < W ∧ 8 < W ∧
      (os_calloc 10 0 2305843009213693953 8 (emptyState 1048576)).map
          (fun r => (r.1, r.2.size (r.1 - META_SIZE) - META_SIZE))
        = some (1048576 + META_SIZE, 8) ∧
      8 < 2305843009213693953 * 8 := by
  decide

/-- C6: whenever `os_calloc` returns a non-null pointer `p`, each of the
`size - sizeof(struct block_meta)` payload cells from `p` on of the block whose
header precedes `p` reads zero, on the mapped path as on the heap path (reuse
with or without split, growth of the last block, a new block at the break). -/
theorem c6_calloc_payload_is_zero (s s1 : State) (fuel res nmemb size p : Nat)
    (hret : os_calloc fuel res nmemb size s = some (p, s1)) (hp : p ≠ 0) :
    ∀ i, i < s1.size (p - META_SIZE) - META_SIZE → s1.mem.read (p + i) = 0 := by
  intro i hi
  unfold os_calloc at hret
  split at hret
  · simp only [Option.some.injEq, Prod.mk.injEq] at hret
    exact absurd hret.1.symm hp
  · simp only at hret
    split at hret
    · split at hret
      · exact absurd hret (by simp)
      · rename_i ptr s2 _
        simp only [Option.some.injEq, Prod.mk.injEq] at hret
        obtain ⟨h1, h2⟩ := hret
        subst h1 h2
        rw [Nat.add_sub_cancel] at hi
        exact memset0_payload ptr s2 i hi
    · split at hret
      · exact absurd hret (by simp)
      · rename_i best s2 _
        simp only [Option.some.injEq, Prod.mk.injEq] at hret
        obtain ⟨h1, h2⟩ := hret
        subst h1 h2
        rw [Nat.add_sub_cancel] at hi
        exact memset0_payload best s2 i hi

/-- A call of `os_calloc` on the heap path that returns, for the witness of C6. -/
theorem c6_witness :
    (os_calloc 10 0 1 8 growConfig.st =
        some (1048648, memset0 1048648 8 (growConfig.st.setStatus 1048616 1)) ∧
      (1048648 : Nat) ≠ 0) ∧
    ∀ i, i < (memset0 1048648 8 (growConfig.st.setStatus 1048616 1)).size
        (1048648 - META_SIZE) - META_SIZE →
      (memset0 1048648 8 (growConfig.st.setStatus 1048616 1)).mem.read (1048648 + i) = 0 :=
  ⟨⟨by decide, by decide⟩,
    c6_calloc_payload_is_zero growConfig.st _ 10 0 1 8 1048648 (by decide) (by decide)⟩

/-- C7: `os_realloc` on a non-null pointer whose header has status `FREE`
returns `NULL` for every requested size, zero included, and the state (heap
list, mapped list, break, mappings, memory) is the one before the call. -/
theorem c7_realloc_of_free_block (s : State) (fuel res ptr newBytes : Nat)
    (hptr : ptr ≠ 0) (hfree : s.status (ptr - META_SIZE) = 0) :
    os_realloc fuel res ptr newBytes s = some (0, s) := by
  unfold os_realloc
  rw [if_neg hptr]
  simp only [hfree, if_true]

/-- The free block at `1048616` of `growConfig`, resized to zero bytes. -/
theorem c7_witness :
    ((1048648 : Nat) ≠ 0 ∧ growConfig.st.status (1048648 - META_SIZE) = 0) ∧
      os_realloc 10 0 1048648 0 growConfig.st = some (0, growConfig.st) :=
  ⟨⟨by decide, by decide⟩,
    c7_realloc_of_free_block growConfig.st 10 0 1048648 0 (by decide) (by decide)⟩

/-- C8: for a well-linked mapped list `l1 ++ b :: l2` of non-overlapping
headers in which `b` has status 2 and a non-zero size, `os_free` of the payload
of `b` leaves the mapped list `l1 ++ l2`, well-linked and in the old order;
`map_head` is `b->next` when `b` was the head and is unchanged otherwise; the
remaining blocks keep size and status; the mapping of `b->size` bytes at `b` is
released; `brk_head` and the break are unchanged, and so is every cell other
than the `prev` field of the successor and the `next` field of the
predecessor of `b` (hence the heap list). -/
theorem c8_free_unlinks_mapped_block (s : State) (b : Nat) (l1 l2 : List Nat)
    (hl : Linked s 0 s.map_head (l1 ++ b :: l2)) (hsep : Sep (l1 ++ b :: l2))
    (hst : s.status b = 2) (hsz : s.size b ≠ 0) :
    Linked (os_free (b + META_SIZE) s) 0 (os_free (b + META_SIZE) s).map_head (l1 ++ l2) ∧
    Sep (l1 ++ l2) ∧
    (os_free (b + META_SIZE) s).map_head = (if l1 = [] then s.next b else s.map_head) ∧
    (∀ x ∈ l1 ++ l2, (os_free (b + META_SIZE) s).size x = s.size x ∧
      (os_free (b + META_SIZE) s).status x = s.status x) ∧
    (os_free (b + META_SIZE) s).maps = s.maps.erase (b, s.size b) ∧
    (os_free (b + META_SIZE) s).brk_head = s.brk_head ∧
    (os_free (b + META_SIZE) s).brk = s.brk ∧
    (∀ a, a ≠ s.next b + OFF_PREV → a ≠ s.prev b + OFF_NEXT →
      (os_free (b + META_SIZE) s).mem.read a = s.mem.read a) := by
  have hM : META_SIZE = 32 := rfl
  have hOP : OFF_PREV = 16 := rfl
  have hON : OFF_NEXT = 24 := rfl
  have hOS : OFF_SIZE = 0 := rfl
  have hOT : OFF_STATUS = 8 := rfl
  obtain ⟨hmid, hprev, hb0⟩ := linked_mid s b l2 l1 0 s.map_head hl
  have hall := linked_ne_zero s (l1 ++ b :: l2) 0 s.map_head hl
  have hbm : b ∈ l1 ++ b :: l2 := by simp
  -- the successor is `NULL` or a block of `l2`, the predecessor `NULL` or a block of `l1`
  have hnext : s.next b = 0 ∨ s.next b ∈ l2 := by
    have hh := linked_head s b (s.next b) l2 hmid
    cases l2 with
    | nil => exact Or.inl hh
    | cons n l2 =>
      right
      have e : s.next b = n := hh
      rw [e]
      exact List.mem_cons_self n l2
  have hprv : (l1 = [] ∧ s.prev b = 0) ∨ (l1 ≠ [] ∧ s.prev b ∈ l1) := by
    cases l1 with
    | nil => exact Or.inl ⟨rfl, hprev⟩
    | cons d l =>
      right
      refine ⟨List.cons_ne_nil d l, ?_⟩
      rw [hprev, List.getLast?_eq_getLast (d :: l) (List.cons_ne_nil d l)]
      exact List.getLast_mem _
  have hmem2 : ∀ x ∈ l2, x ∈ l1 ++ b :: l2 := fun x hx =>
    List.mem_append_right _ (List.mem_cons_of_mem b hx)
  have hmem1 : ∀ x ∈ l1, x ∈ l1 ++ b :: l2 := fun x hx => List.mem_append_left _ hx
  have hmem12 : ∀ x ∈ l1 ++ l2, x ∈ l1 ++ b :: l2 := by
    intro x hx
    rcases List.mem_append.mp hx with h | h
    · exact hmem1 x h
    · exact hmem2 x h
  have hsep12 : Sep (l1 ++ l2) := by
    unfold Sep at hsep ⊢
    exact hsep.sublist (List.Sublist.append_left (List.sublist_cons_self b l2) l1)
  have hnodup : ∀ x ∈ l1 ++ l2, apart x b := by
    intro x hx
    unfold Sep at hsep
    rw [List.pairwise_append] at hsep
    rcases List.mem_append.mp hx with h | h
    · exact hsep.2.2 x h b (List.mem_cons_self b l2)
    · exact apart_symm b x ((List.pairwise_cons.mp hsep.2.1).1 x h)
  have pairApart : ∀ x ∈ l1 ++ b :: l2, ∀ y ∈ l1 ++ b :: l2, x = y ∨ apart x y :=
    fun x hx y hy => sep_apart _ hsep x y hx hy
  have hnb : s.next b = 0 ∨ apart b (s.next b) := by
    rcases hnext with h | h
    · exact Or.inl h
    · exact Or.inr (apart_symm _ _ (hnodup _ (List.mem_append_right _ h)))
  have hpb : s.prev b = 0 ∨ apart b (s.prev b) := by
    rcases hprv with h | h
    · exact Or.inl h.2
    · exact Or.inr (apart_symm _ _ (hnodup _ (List.mem_append_left _ h.2)))
  have hnp : s.next b = 0 ∨ s.prev b = 0 ∨ apart (s.next b) (s.prev b) := by
    rcases hnext with h | h
    · exact Or.inl h
    · rcases hprv with h1 | h1
      · exact Or.inr (Or.inl h1.2)
      · right; right
        unfold Sep at hsep
        rw [List.pairwise_append] at hsep
        exact apart_symm _ _ (hsep.2.2 _ h1.2 _ (List.mem_cons_of_mem b h))
  obtain ⟨f1, f2, f3, f4, f5⟩ := os_free_mapped_state s b hst hsz hnb hpb hnp
  -- the fields of the remaining blocks
  have hcell : ∀ x ∈ l1 ++ l2, ∀ k, k < META_SIZE →
      (os_free (b + META_SIZE) s).mem.read (x + k) =
        if s.prev b = x ∧ k = OFF_NEXT then s.next b
        else if s.next b = x ∧ k = OFF_PREV then s.prev b else s.mem.read (x + k) := by
    intro x hx k hk
    have hx0 := hall x (hmem12 x hx)
    rw [f5]
    have hxn : s.next b = 0 ∨ s.next b = x ∨ apart (s.next b) x := by
      rcases hnext with h | h
      · exact Or.inl h
      · exact Or.inr (pairApart _ (hmem2 _ h) x (hmem12 x hx))
    have hxp : s.prev b = 0 ∨ s.prev b = x ∨ apart (s.prev b) x := by
      rcases hprv with h | h
      · exact Or.inl h.2
      · exact Or.inr (pairApart _ (hmem1 _ h.2) x (hmem12 x hx))
    unfold apart at hxn hxp
    by_cases c1 : s.prev b = x ∧ k = OFF_NEXT
    · rw [if_pos c1, if_pos ⟨by rw [c1.1]; exact hx0, by rw [c1.1, c1.2]⟩]
    · rw [if_neg c1, if_neg (by omega)]
      by_cases c2 : s.next b = x ∧ k = OFF_PREV
      · rw [if_pos c2, if_pos ⟨by rw [c2.1]; exact hx0, by rw [c2.1, c2.2]⟩]
      · rw [if_neg c2, if_neg (by omega)]
  refine ⟨?_, hsep12, ?_, ?_, f3, f1, f2, ?_⟩
  · have hq : (0 : Nat) ∉ l1 ++ b :: l2 := fun h0 => hall 0 h0 rfl
    have hu := linked_unlink s (os_free (b + META_SIZE) s) b (s.next b) (s.prev b) l2 rfl rfl
      l1 0 s.map_head hl hsep hq ?_ ?_
    · rw [f4]
      rcases hprv with h | h
      · rw [if_pos h.1] at hu
        rw [if_neg (not_not.mpr h.2)]
        exact hu
      · rw [if_neg h.1] at hu
        rw [if_pos (hall _ (hmem1 _ h.2))]
        exact hu
    · intro x hx
      have h : (os_free (b + META_SIZE) s).prev x = _ := hcell x hx OFF_PREV (by decide)
      rw [h, if_neg (by omega)]
      by_cases c : x = s.next b
      · rw [if_pos c, if_pos ⟨c.symm, rfl⟩]
      · rw [if_neg c, if_neg (fun hc => c hc.1.symm)]
        rfl
    · intro x hx
      have h : (os_free (b + META_SIZE) s).next x = _ := hcell x hx OFF_NEXT (by decide)
      rw [h]
      by_cases c : x = s.prev b
      · rw [if_pos c, if_pos ⟨c.symm, rfl⟩]
      · rw [if_neg c, if_neg (fun hc => c hc.1.symm), if_neg (by omega)]
        rfl
  · rw [f4]
    rcases hprv with h | h
    · rw [if_pos h.1, if_neg (not_not.mpr h.2)]
    · rw [if_neg h.1, if_pos (hall _ (hmem1 _ h.2))]
  · intro x hx
    have h1 := hcell x hx OFF_SIZE (by decide)
    have h2 := hcell x hx OFF_STATUS (by decide)
    rw [if_neg (by omega), if_neg (by omega)] at h1 h2
    exact ⟨h1, h2⟩
  · intro a ha1 ha2
    rw [f5, if_neg (fun h => ha2 h.2), if_neg (fun h => ha1 h.2)]

/-- The middle one of the three mappings of `threeMapState` is released. -/
theorem c8_witness :
    (Linked threeMapState 0 threeMapState.map_head ([1073741824] ++ 2147483648 :: [3221225472]) ∧
      Sep ([1073741824] ++ 2147483648 :: [3221225472]) ∧
      threeMapState.status 2147483648 = 2 ∧ threeMapState.size 2147483648 ≠ 0) ∧
    (Linked (os_free (2147483648 + META_SIZE) threeMapState) 0
        (os_free (2147483648 + META_SIZE) threeMapState).map_head
        ([1073741824] ++ [3221225472]) ∧
      Sep ([1073741824] ++ [3221225472]) ∧
      (os_free (2147483648 + META_SIZE) threeMapState).map_head =
        (if [1073741824] = [] then threeMapState.next 2147483648 else threeMapState.map_head) ∧
      (∀ x ∈ [1073741824] ++ [3221225472],
        (os_free (2147483648 + META_SIZE) threeMapState).size x = threeMapState.size x ∧
        (os_free (2147483648 + META_SIZE) threeMapState).status x = threeMapState.status x) ∧
      (os_free (2147483648 + META_SIZE) threeMapState).maps =
        threeMapState.maps.erase (2147483648, threeMapState.size 2147483648) ∧
      (os_free (2147483648 + META_SIZE) threeMapState).brk_head = threeMapState.brk_head ∧
      (os_free (2147483648 + META_SIZE) threeMapState).brk = threeMapState.brk ∧
      (∀ a, a ≠ threeMapState.next 2147483648 + OFF_PREV →
        a ≠ threeMapState.prev 2147483648 + OFF_NEXT →
        (os_free (2147483648 + META_SIZE) threeMapState).mem.read a =
          threeMapState.mem.read a)) :=
  ⟨⟨by decide, by decide, by decide, by decide⟩,
    c8_free_unlinks_mapped_block threeMapState 2147483648 [1073741824] [3221225472]
      (by decide) (by decide) (by decide) (by decide)⟩

/-- C9: for an allocated heap block `b` without successor and a request
`newBytes > 0` whose total `align8 (newBytes + headerSize)` is above the size
of `b` and below 128 KiB, `os_realloc` returns the pointer it was given, the
break is advanced by the difference of the two sizes, the size field of `b`
holds the new total, and no other cell of memory, neither list head and no
mapping changes. -/
theorem c9_realloc_grows_last_block (s : State) (fuel res b newBytes : Nat)
    (halloc : s.status b = 1) (hlast : s.next b = 0) (hpos : 0 < newBytes)
    (hgrow : s.size b < align8 (newBytes + META_SIZE))
    (hsmall : align8 (newBytes + META_SIZE) < MMAP_THRESHOLD) :
    ∃ s1, os_realloc fuel res (b + META_SIZE) newBytes s = some (b + META_SIZE, s1) ∧
      s1.brk = s.brk + (align8 (newBytes + META_SIZE) - s.size b) ∧
      s1.size b = align8 (newBytes + META_SIZE) ∧
      (∀ a, a ≠ b + OFF_SIZE → s1.mem.read a = s.mem.read a) ∧
      s1.brk_head = s.brk_head ∧ s1.map_head = s.map_head ∧ s1.maps = s.maps := by
  have hge := align8_ge (newBytes + META_SIZE)
  have hW : newBytes + META_SIZE + 7 < W := by
    unfold MMAP_THRESHOLD at hsmall
    unfold W
    omega
  have hns : ALIGN (add64 newBytes META_SIZE) = align8 (newBytes + META_SIZE) :=
    ALIGN_add64 newBytes hW
  have hptr : b + META_SIZE ≠ 0 := by unfold META_SIZE; omega
  have h1 : ¬ (align8 (newBytes + META_SIZE) ≥ MMAP_THRESHOLD) := by omega
  have h2 : ¬ (s.size b > align8 (newBytes + META_SIZE)) := by omega
  have hsub : sub64 (align8 (newBytes + META_SIZE)) (s.size b)
      = align8 (newBytes + META_SIZE) - s.size b := sub64_eq _ _ (by omega)
  have hhalf : align8 (newBytes + META_SIZE) - s.size b < W / 2 := by
    unfold MMAP_THRESHOLD at hsmall
    unfold W
    omega
  refine ⟨((sbrk (sub64 (align8 (newBytes + META_SIZE)) (s.size b)) s).2).setSize b
    (align8 (newBytes + META_SIZE)), ?_, ?_, ?_, ?_, rfl, rfl, rfl⟩
  · unfold os_realloc
    rw [if_neg hptr]
    simp only [Nat.add_sub_cancel, halloc, hns, hlast]
    simp [h1, h2, hgrow, Nat.ne_of_gt hpos]
  · simp only [State.setSize, sbrk, hsub, if_pos hhalf]
  · simp only [State.setSize, State.size, Mem.read_write, if_true]
  · intro a ha
    simp only [State.setSize, sbrk, Mem.read_write, if_neg ha]

/-- The last block of `splitConfig`, at `1048720` with 130928 bytes, resized
to 130904 bytes of payload. -/
theorem c9_witness :
    (splitConfig.st.status 1048720 = 1 ∧ splitConfig.st.next 1048720 = 0 ∧ 0 < 130904 ∧
      splitConfig.st.size 1048720 < align8 (130904 + META_SIZE) ∧
      align8 (130904 + META_SIZE) < MMAP_THRESHOLD) ∧
    ∃ s1, os_realloc 10 0 (1048720 + META_SIZE) 130904 splitConfig.st
        = some (1048720 + META_SIZE, s1) ∧
      s1.brk = splitConfig.st.brk + (align8 (130904 + META_SIZE) - splitConfig.st.size 1048720) ∧
      s1.size 1048720 = align8 (130904 + META_SIZE) ∧
      (∀ a, a ≠ 1048720 + OFF_SIZE → s1.mem.read a = splitConfig.st.mem.read a) ∧
      s1.brk_head = splitConfig.st.brk_head ∧ s1.map_head = splitConfig.st.map_head ∧
      s1.maps = splitConfig.st.maps :=
  ⟨⟨by decide, by decide, by decide, by decide, by decide⟩,
    c9_realloc_grows_last_block splitConfig.st 10 0 1048720 130904
      (by decide) (by decide) (by decide) (by decide) (by decide)⟩

/-- C10, as the claim states it, fails: on the empty allocator `os_malloc` of
128 KiB with a failing `mmap` does not return `NULL`. The call stores the block
size through `MAP_FAILED` (line 75), the store traps and nothing is returned. -/
theorem c10_failed_mmap_is_not_reported :
    Reachable startConfig ∧
      os_malloc_checked 10 MAP_FAILED MMAP_THRESHOLD startConfig.st
        = some (Outcome.trapped MAP_FAILED startConfig.st) ∧
      os_malloc_checked 10 MAP_FAILED MMAP_THRESHOLD startConfig.st
        ≠ some (Outcome.returned (0, startConfig.st)) :=
  ⟨reachable_start, by decide, by decide⟩

/-- C10, amended: when `mmap` fails during `os_malloc n` with `n ≥ 128 KiB`, the
result is not tested. The first access of the call is the store of the block
size through `MAP_FAILED`, a word that does not lie inside the address space:
the call traps there, in the state in which it was entered (both lists, the
break, the mappings and every cell as before), and returns nothing, `NULL`
included. -/
theorem c10_malloc_large_traps_on_failed_mmap (s : State) (fuel n : Nat)
    (hn : MMAP_THRESHOLD ≤ n) :
    os_malloc_checked fuel MAP_FAILED n s = some (Outcome.trapped MAP_FAILED s) ∧
      ¬ (MAP_FAILED + 8 ≤ W) ∧
      ∀ r, os_malloc_checked fuel MAP_FAILED n s ≠ some (Outcome.returned r) := by
  have hn0 : n ≠ 0 := by unfold MMAP_THRESHOLD at hn; omega
  have h : os_malloc_checked fuel MAP_FAILED n s = some (Outcome.trapped MAP_FAILED s) := by
    unfold os_malloc_checked
    rw [if_neg hn0]
    dsimp only
    rw [if_pos hn]
    unfold map_block_checked mmap access
    dsimp only
    rw [if_pos rfl, if_neg (by decide)]
    rfl
  refine ⟨h, by decide, ?_⟩
  intro r hr
  rw [h] at hr
  cases hr

/-- A failing `mmap` with one mapping in the mapped list. -/
theorem c10_witness :
    MMAP_THRESHOLD ≤ 200000 ∧
      os_malloc_checked 1 MAP_FAILED 200000 oneMapState
        = some (Outcome.trapped MAP_FAILED oneMapState) ∧
      ¬ (MAP_FAILED + 8 ≤ W) ∧
      ∀ r, os_malloc_checked 1 MAP_FAILED 200000 oneMapState ≠ some (Outcome.returned r) :=
  ⟨by decide, c10_malloc_large_traps_on_failed_mmap oneMapState 1 200000 (by decide)⟩

/-- C11, at a failing input: on the empty allocator `os_malloc(131071)` grows
the preallocated free block and returns its payload `1048608` without setting
its status, and the next call `os_malloc(8)` finds that block free and returns
`1048608` again. -/
theorem c11_two_mallocs_return_one_pointer :
    Reachable startConfig ∧ 131071 < MMAP_THRESHOLD ∧ 8 < MMAP_THRESHOLD ∧
      os_malloc 10 0 131071 startConfig.st = some (1048608, grownFirstState) ∧
      grownFirstState.status (1048608 - META_SIZE) = 0 ∧
      (os_malloc 10 0 8 grownFirstState).map Prod.fst = some 1048608 :=
  ⟨reachable_start, by decide, by decide, by decide, by decide, by decide⟩

/-- C12, at a failing input: in the reachable configuration `growConfig` the
heap list is `[1048576, 1048616, 1048656, 1048696]`, no block passes the test
of `find_best_fit` for `align8 (130952 + headerSize) = 130984` bytes and the
last block is FREE with 130952 bytes; `os_malloc(130952)` moves the break by
32, sets the size of the last block to 130984 and returns its payload, and the
status of that block is still `0`, not `1`. -/
theorem c12_grown_last_block_stays_free :
    Reachable growConfig ∧
      Chain growConfig.st growConfig.st.brk_head [1048576, 1048616, 1048656, 1048696] ∧
      align8 (130952 + META_SIZE) = 130984 ∧
      (∀ b ∈ [1048576, 1048616, 1048656, 1048696], ¬ fits growConfig.st 130984 b) ∧
      growConfig.st.status 1048696 = 0 ∧ growConfig.st.size 1048696 = 130952 ∧
      (os_malloc 10 0 130952 growConfig.st).map
          (fun r => (r.1, r.2.brk, r.2.size 1048696, r.2.status 1048696))
        = some (1048696 + META_SIZE, growConfig.st.brk + 32, 130984, 0) :=
  ⟨reachable_growConfig, by decide, by decide, by decide, by decide, by decide, by decide⟩

/-- C13, at a failing input: in the reachable configuration `splitConfig` the
heap list is `[1048576, 1048640, 1048680, 1048720]`; the `next` field of the
block at `1048640` names `1048680`, and the `prev` field of `1048680` names
`1048576`, the block from which `1048640` was split off. -/
theorem c13_split_leaves_stale_prev :
    Reachable splitConfig ∧
      Chain splitConfig.st splitConfig.st.brk_head [1048576, 1048640, 1048680, 1048720] ∧
      splitConfig.st.next 1048640 = 1048680 ∧ splitConfig.st.prev 1048680 = 1048576 ∧
      ¬ Linked splitConfig.st 0 splitConfig.st.brk_head [1048576, 1048640, 1048680, 1048720] :=
  ⟨reachable_splitConfig, by decide, by decide, by decide, by decide⟩

/-- C14, at a failing input: in the reachable configuration `unmergedConfig`
the heap list is `[1048576, 1048640, 1048680, 1048720]` and its second and
third block are both FREE. -/
theorem c14_adjacent_free_blocks :
    Reachable unmergedConfig ∧
      Chain unmergedConfig.st unmergedConfig.st.brk_head [1048576, 1048640, 1048680, 1048720] ∧
      unmergedConfig.st.status 1048640 = 0 ∧ unmergedConfig.st.status 1048680 = 0 ∧
      ¬ NoAdjFree unmergedConfig.st [1048576, 1048640, 1048680, 1048720] :=
  ⟨reachable_unmergedConfig, by decide, by decide, by decide, by decide⟩

/-- C15, at a failing input: in the reachable configuration `overrunConfig`
the heap list is `[1048576, 1048616]`, the sizes of its blocks add up to 40,
and the break is 131072 bytes above the first block. -/
theorem c15_sizes_do_not_add_up :
    Reachable overrunConfig ∧
      Chain overrunConfig.st overrunConfig.st.brk_head [1048576, 1048616] ∧
      sizeSum overrunConfig.st [1048576, 1048616] = 40 ∧
      overrunConfig.st.brk - overrunConfig.st.brk_head = 131072 :=
  ⟨reachable_overrunConfig, by decide, by decide, by decide⟩

/-- C16: for a heap list `l1 ++ f :: l2` (the forward traversal from
`brk_head`) in which the headers of the other blocks lie outside the extent of
`f`, a request `n` in `[1, 128 KiB)` with `total = align8 (n + headerSize)` and
`find_best_fit total` returning `f`: `os_malloc n` returns the payload of `f`
and marks `f` allocated; if `f.size - total ≥ 40` the list becomes
`l1 ++ f :: (f + total) :: l2`, `f` has size `total` and the new block at
`f + total` is FREE with size `f.size - total`; otherwise the list and the
size of `f` stay as they were. In both cases the break, both list heads, the
mappings, every cell outside the old extent of `f` and with them the fields
of every other block are unchanged. -/
theorem c16_malloc_reuses_and_splits (s : State) (fuel res n f : Nat) (l1 l2 : List Nat)
    (hn1 : 0 < n) (hn2 : n < MMAP_THRESHOLD)
    (hl : Chain s s.brk_head (l1 ++ f :: l2)) (hfuel : (l1 ++ f :: l2).length < fuel)
    (hfind : find_best_fit fuel (align8 (n + META_SIZE)) s = some f) (hf0 : f ≠ 0)
    (hsep : ∀ b ∈ l1 ++ l2, b + META_SIZE ≤ f ∨ f + s.size f ≤ b) :
    ∃ s1, os_malloc fuel res n s = some (f + META_SIZE, s1) ∧
      s1.brk = s.brk ∧ s1.brk_head = s.brk_head ∧ s1.map_head = s.map_head ∧
      s1.maps = s.maps ∧ s1.status f = 1 ∧
      (∀ a, (a < f ∨ f + s.size f ≤ a) → s1.mem.read a = s.mem.read a) ∧
      (∀ b ∈ l1 ++ l2, s1.size b = s.size b ∧ s1.status b = s.status b ∧
        s1.prev b = s.prev b ∧ s1.next b = s.next b) ∧
      (40 ≤ s.size f - align8 (n + META_SIZE) →
        Chain s1 s1.brk_head (l1 ++ f :: (f + align8 (n + META_SIZE)) :: l2) ∧
        s1.size f = align8 (n + META_SIZE) ∧
        s1.size (f + align8 (n + META_SIZE)) = s.size f - align8 (n + META_SIZE) ∧
        s1.status (f + align8 (n + META_SIZE)) = 0) ∧
      (s.size f - align8 (n + META_SIZE) < 40 →
        Chain s1 s1.brk_head (l1 ++ f :: l2) ∧ s1.size f = s.size f) := by
  have hM : META_SIZE = 32 := rfl
  have hT : MMAP_THRESHOLD = 131072 := rfl
  have hWv : W = 18446744073709551616 := rfl
  have hOS : OFF_SIZE = 0 := rfl
  have hOT : OFF_STATUS = 8 := rfl
  have hOP : OFF_PREV = 16 := rfl
  have hON : OFF_NEXT = 24 := rfl
  have hge := align8_ge (n + META_SIZE)
  have hlt := align8_lt (n + META_SIZE)
  have hns : ALIGN (add64 n META_SIZE) = align8 (n + META_SIZE) := ALIGN_add64 n (by omega)
  have h8 : align8 (n + META_SIZE) % 8 = 0 := by unfold align8; omega
  have hbh : s.brk_head ≠ 0 := chain_head_ne_zero s s.brk_head f l1 l2 hl
  -- the block that was found passes the test
  have hfit : fits s (align8 (n + META_SIZE)) f := by
    obtain ⟨r, hr, hcase⟩ := find_from_first s (align8 (n + META_SIZE)) _ s.brk_head fuel hl hfuel
    unfold find_best_fit at hfind
    rw [hfind] at hr
    have e : f = r := Option.some.inj hr
    rcases hcase with ⟨e0, _⟩ | ⟨_, _, _, hfit, _⟩
    · exact absurd (e.trans e0) hf0
    · rw [e]; exact hfit
  unfold fits at hfit
  obtain ⟨hsz, _⟩ := hfit
  have hsub : sub64 (s.size f) (align8 (n + META_SIZE)) = s.size f - align8 (n + META_SIZE) :=
    sub64_eq _ _ hsz
  have hszA : (s.setStatus f 1).size f = s.size f := by
    simp only [State.size, State.setStatus, Mem.read_write]
    rw [if_neg (by omega)]
  have hothers : ∀ (s1 : State),
      (∀ a, (a < f ∨ f + s.size f ≤ a) → s1.mem.read a = s.mem.read a) →
      ∀ b ∈ l1 ++ l2, s1.size b = s.size b ∧ s1.status b = s.status b ∧
        s1.prev b = s.prev b ∧ s1.next b = s.next b := by
    intro s1 hfr b hb
    have hb1 := hsep b hb
    have hcell : ∀ k, k < 32 → s1.mem.read (b + k) = s.mem.read (b + k) := by
      intro k hk
      exact hfr (b + k) (by omega)
    exact ⟨hcell 0 (by decide), hcell 8 (by decide), hcell 16 (by decide), hcell 24 (by decide)⟩
  by_cases hsplit : 40 ≤ s.size f - align8 (n + META_SIZE)
  · -- the block is split
    obtain ⟨t, ht⟩ : ∃ t : State, t = ((((((s.setStatus f 1).setSize (f + align8 (n + META_SIZE))
          (s.size f - align8 (n + META_SIZE))).setSize f (align8 (n + META_SIZE))).setStatus
          (f + align8 (n + META_SIZE)) 0).setNext (f + align8 (n + META_SIZE))
          (s.next f)).setNext f (f + align8 (n + META_SIZE))).setPrev
          (f + align8 (n + META_SIZE)) f := ⟨_, rfl⟩
    have hread : ∀ a, t.mem.read a
        = if a = f + align8 (n + META_SIZE) + 16 then f
          else if a = f + 24 then f + align8 (n + META_SIZE)
          else if a = f + align8 (n + META_SIZE) + 24 then s.next f
          else if a = f + align8 (n + META_SIZE) + 8 then 0
          else if a = f then align8 (n + META_SIZE)
          else if a = f + align8 (n + META_SIZE) then s.size f - align8 (n + META_SIZE)
          else if a = f + 8 then 1 else s.mem.read a := by
      intro a
      rw [ht]
      simp only [State.setStatus, State.setSize, State.setNext, State.setPrev, Mem.read_write,
        OFF_SIZE, OFF_STATUS, OFF_NEXT, OFF_PREV, Nat.add_zero]
    have hfr : ∀ a, (a < f ∨ f + s.size f ≤ a) → t.mem.read a = s.mem.read a := by
      intro a ha
      rw [hread, if_neg (by omega), if_neg (by omega), if_neg (by omega), if_neg (by omega),
        if_neg (by omega), if_neg (by omega), if_neg (by omega)]
    have hnx : ((((s.setStatus f 1).setSize (f + align8 (n + META_SIZE))
        (s.size f - align8 (n + META_SIZE))).setSize f (align8 (n + META_SIZE))).setStatus
        (f + align8 (n + META_SIZE)) 0).next f = s.next f := by
      simp only [State.next, State.setStatus, State.setSize, Mem.read_write]
      rw [if_neg (by omega), if_neg (by omega), if_neg (by omega), if_neg (by omega)]
    refine ⟨t, ?_, by rw [ht]; rfl, by rw [ht]; rfl, by rw [ht]; rfl, by rw [ht]; rfl, ?_, hfr,
      hothers t hfr, ?_, ?_⟩
    · unfold os_malloc
      rw [if_neg (by omega), hns]
      simp only [if_neg (by omega : ¬ (n ≥ MMAP_THRESHOLD))]
      unfold heap_block
      simp only [if_neg hbh, hfind, if_neg hf0, hszA, hsub, ge_iff_le, if_pos hsplit, hnx, ht]
    · unfold State.status
      rw [hread, if_neg (by omega), if_neg (by omega), if_neg (by omega), if_neg (by omega),
        if_neg (by omega), if_neg (by omega), if_pos (by omega)]
    · intro _
      have hbht : t.brk_head = s.brk_head := by rw [ht]; rfl
      rw [hbht]
      refine ⟨?_, ?_, ?_, ?_⟩
      · refine chain_insert s t f (f + align8 (n + META_SIZE)) l2 (by omega) ?_ ?_ l1 s.brk_head
          hl (fun b hb => (hothers t hfr b hb).2.2.2)
        · unfold State.next
          rw [hread, if_neg (by omega), if_pos (by omega)]
        · have e : t.next (f + align8 (n + META_SIZE)) = s.next f := by
            show t.mem.read (f + align8 (n + META_SIZE) + OFF_NEXT) = s.next f
            rw [hread, if_neg (by omega), if_neg (by omega), if_pos (by omega)]
          exact e
      · unfold State.size
        rw [hread, if_neg (by omega), if_neg (by omega), if_neg (by omega), if_neg (by omega),
          if_pos (by omega)]
      · have e : t.size (f + align8 (n + META_SIZE)) = s.size f - align8 (n + META_SIZE) := by
          show t.mem.read (f + align8 (n + META_SIZE) + OFF_SIZE) = _
          rw [hread, if_neg (by omega), if_neg (by omega), if_neg (by omega), if_neg (by omega),
            if_neg (by omega), if_pos (by omega)]
        exact e
      · unfold State.status
        rw [hread, if_neg (by omega), if_neg (by omega), if_neg (by omega), if_pos (by omega)]
    · intro hlt40
      omega
  · -- the block is handed out whole
    have hfr : ∀ a, (a < f ∨ f + s.size f ≤ a) →
        (s.setStatus f 1).mem.read a = s.mem.read a := by
      intro a ha
      simp only [State.setStatus, Mem.read_write]
      rw [if_neg (by omega)]
    refine ⟨s.setStatus f 1, ?_, rfl, rfl, rfl, rfl, ?_, hfr, hothers _ hfr, ?_, ?_⟩
    · unfold os_malloc
      rw [if_neg (by omega), hns]
      simp only [if_neg (by omega : ¬ (n ≥ MMAP_THRESHOLD))]
      unfold heap_block
      simp only [if_neg hbh, hfind, if_neg hf0, hszA, hsub, ge_iff_le, if_neg hsplit]
    · simp only [State.status, State.setStatus, Mem.read_write, if_true]
    · intro h40
      exact absurd h40 hsplit
    · intro _
      refine ⟨?_, hszA⟩
      refine chain_congr s _ _ s.brk_head ?_ hl
      intro b hb
      have hb1 : b = f ∨ b ∈ l1 ++ l2 := by
        rcases List.mem_append.mp hb with h | h
        · exact Or.inr (List.mem_append_left _ h)
        · rcases List.mem_cons.mp h with h | h
          · exact Or.inl h
          · exact Or.inr (List.mem_append_right _ h)
      have hne : ¬ (b + OFF_NEXT = f + OFF_STATUS) := by
        rcases hb1 with h | h
        · omega
        · have := hsep b h
          omega
      simp only [State.next, State.setStatus, Mem.read_write]
      rw [if_neg hne]

/-- In `eightyConfig` a request of 8 bytes is served from the free block at
`1048656`, which is split. -/
theorem c16_witness :
    ((0 : Nat) < 8 ∧ 8 < MMAP_THRESHOLD ∧
      Chain eightyConfig.st eightyConfig.st.brk_head ([1048576] ++ 1048656 :: []) ∧
      ([1048576] ++ 1048656 :: []).length < 3 ∧
      find_best_fit 3 (align8 (8 + META_SIZE)) eightyConfig.st = some 1048656 ∧
      (1048656 : Nat) ≠ 0 ∧
      ∀ b ∈ [1048576] ++ [],
        b + META_SIZE ≤ 1048656 ∨ 1048656 + eightyConfig.st.size 1048656 ≤ b) ∧
    ∃ s1, os_malloc 3 0 8 eightyConfig.st = some (1048656 + META_SIZE, s1) ∧
      s1.brk = eightyConfig.st.brk ∧ s1.brk_head = eightyConfig.st.brk_head ∧
      s1.map_head = eightyConfig.st.map_head ∧
      s1.maps = eightyConfig.st.maps ∧ s1.status 1048656 = 1 ∧
      (∀ a, (a < 1048656 ∨ 1048656 + eightyConfig.st.size 1048656 ≤ a) →
        s1.mem.read a = eightyConfig.st.mem.read a) ∧
      (∀ b ∈ [1048576] ++ [], s1.size b = eightyConfig.st.size b ∧
        s1.status b = eightyConfig.st.status b ∧
        s1.prev b = eightyConfig.st.prev b ∧ s1.next b = eightyConfig.st.next b) ∧
      (40 ≤ eightyConfig.st.size 1048656 - align8 (8 + META_SIZE) →
        Chain s1 s1.brk_head ([1048576] ++ 1048656 :: (1048656 + align8 (8 + META_SIZE)) :: []) ∧
        s1.size 1048656 = align8 (8 + META_SIZE) ∧
        s1.size (1048656 + align8 (8 + META_SIZE)) =
          eightyConfig.st.size 1048656 - align8 (8 + META_SIZE) ∧
        s1.status (1048656 + align8 (8 + META_SIZE)) = 0) ∧
      (eightyConfig.st.size 1048656 - align8 (8 + META_SIZE) < 40 →
        Chain s1 s1.brk_head ([1048576] ++ 1048656 :: []) ∧
        s1.size 1048656 = eightyConfig.st.size 1048656) :=
  ⟨⟨by decide, by decide, by decide, by decide, by decide, by decide, by decide⟩,
    c16_malloc_reuses_and_splits eightyConfig.st 3 0 8 1048656 [1048576] []
      (by decide) (by decide) (by decide) (by decide) (by decide) (by decide) (by decide)⟩

/-- C17: for a well-linked heap list `l1 ++ b :: l2` of non-overlapping
headers without two adjacent FREE blocks, whose sizes add up to less than
`2^64`, and a block `b` in it with status 1 (allocated on the heap) and a
non-zero size, `os_free` of the payload of `b` leaves the list `mergedList`:
`b` together with its next neighbour if that is FREE and its previous
neighbour if that is FREE has become the one block `mergedBlock`, which is
FREE and whose size is the sum `mergedSize` of the merged sizes; every other
block keeps size and status; the list is again well-linked, of non-overlapping
headers and without two adjacent FREE blocks; the break, both list heads and
the mappings are unchanged. -/
theorem c17_free_merges_neighbours (s : State) (b : Nat) (l1 l2 : List Nat)
    (hl : Linked s 0 s.brk_head (l1 ++ b :: l2)) (hsep : Sep (l1 ++ b :: l2))
    (hnf : NoAdjFree s (l1 ++ b :: l2)) (hst : s.status b = 1) (hsz : s.size b ≠ 0)
    (hsum : sizeSum s (l1 ++ b :: l2) < W) :
    Linked (os_free (b + META_SIZE) s) 0 (os_free (b + META_SIZE) s).brk_head
      (mergedList s b l1 l2) ∧
    Sep (mergedList s b l1 l2) ∧
    NoAdjFree (os_free (b + META_SIZE) s) (mergedList s b l1 l2) ∧
    mergedBlock s b ∈ mergedList s b l1 l2 ∧
    (os_free (b + META_SIZE) s).status (mergedBlock s b) = 0 ∧
    (os_free (b + META_SIZE) s).size (mergedBlock s b) = mergedSize s b ∧
    (∀ y ∈ mergedList s b l1 l2, y ≠ mergedBlock s b →
      (os_free (b + META_SIZE) s).size y = s.size y ∧
      (os_free (b + META_SIZE) s).status y = s.status y) ∧
    (os_free (b + META_SIZE) s).brk = s.brk ∧
    (os_free (b + META_SIZE) s).brk_head = s.brk_head ∧
    (os_free (b + META_SIZE) s).map_head = s.map_head ∧
    (os_free (b + META_SIZE) s).maps = s.maps := by
  have hptr : b + META_SIZE ≠ 0 := by unfold META_SIZE; omega
  obtain ⟨hN, hN'⟩ := next_cases s s.brk_head b l1 l2 hl
  obtain ⟨hP, hP'⟩ := prev_cases s s.brk_head b l1 l2 hl
  have hms := mergedSize_le s s.brk_head b l1 l2 hl
  obtain ⟨s1, e1, a2, a3, a4, a5, a6, a7, a8, a9, a10⟩ := free_stage_next s b l1 l2 hl hsep hsum
  -- the list after the first merge
  have hrest : (if nextFree s b then l2.tail else l2).Sublist l2 := by
    by_cases c : nextFree s b
    · rw [if_pos c]; exact List.tail_sublist l2
    · rw [if_neg c]
  have hsep1 : Sep (l1 ++ b :: (if nextFree s b then l2.tail else l2)) :=
    List.Pairwise.sublist (List.Sublist.append_left (List.Sublist.cons₂ b hrest) l1) hsep
  have hpb : s.prev b ≠ 0 → s1.status (s.prev b) = s.status (s.prev b) ∧
      s1.size (s.prev b) = s.size (s.prev b) := by
    intro hp
    have hm := prev_mem s s.brk_head b l1 l2 hl hp
    have h := a6 (s.prev b) (List.mem_append_left _ hm)
    exact ⟨h.2, h.1⟩
  have hpfe : prevFree s1 b ↔ prevFree s b := by
    unfold prevFree
    rw [a5]
    constructor
    · intro hc
      exact ⟨hc.1, by rw [← (hpb hc.1).1]; exact hc.2⟩
    · intro hc
      exact ⟨hc.1, by rw [(hpb hc.1).1]; exact hc.2⟩
  have hkk : mergedBlock s1 b = mergedBlock s b := by
    unfold mergedBlock
    rw [a5]
    exact if_congr hpfe rfl rfl
  have hifl : (if prevFree s1 b then l1 else l1 ++ [b]) = (if prevFree s b then l1 else l1 ++ [b]) :=
    if_congr hpfe rfl rfl
  have hsumB : prevFree s1 b → s1.size (s1.prev b) + s1.size b < W := by
    intro hc
    have hc2 := hpfe.mp hc
    rw [a5, (hpb hc2.1).2, a4]
    unfold mergedSize at hms
    rw [if_pos hc2] at hms
    omega
  obtain ⟨t2, e2, b2, b3, b4, b5, b6, b7, b8, b9, b10, b11⟩ :=
    free_stage_prev s1 s.brk_head b l1 _ a2 hsep1 hsumB
  rw [hifl] at b2 b7
  rw [hkk] at b5 b6 b7
  -- the state after the call
  have hfree : os_free (b + META_SIZE) s = t2 := by
    have h02 : ¬ (t2.status b = 2) := by
      rw [b4, a3]
      decide
    unfold os_free
    rw [if_neg hptr]
    simp only [Nat.add_sub_cancel, if_neg hsz, hst, if_true, e1, e2, if_neg h02]
  rw [hfree]
  have hml : mergedList s b l1 l2 =
      (if prevFree s b then l1 else l1 ++ [b]) ++ (if nextFree s b then l2.tail else l2) := rfl
  have hinrest : ∀ y ∈ mergedList s b l1 l2, y ≠ mergedBlock s b →
      y ∈ l1 ++ (if nextFree s b then l2.tail else l2) := by
    intro y hy hyk
    rw [hml] at hy
    by_cases c : prevFree s b
    · rw [if_pos c] at hy
      exact hy
    · rw [if_neg c] at hy
      have hkb : mergedBlock s b = b := if_neg c
      rw [hkb] at hyk
      rcases List.mem_append.mp hy with h1 | h1
      · rcases List.mem_append.mp h1 with h2 | h2
        · exact List.mem_append_left _ h2
        · exact absurd (List.mem_singleton.mp h2) hyk
      · exact List.mem_append_right _ h1
  have hkstat : s1.status (mergedBlock s b) = 0 := by
    by_cases c : prevFree s b
    · have hkb : mergedBlock s b = s.prev b := if_pos c
      rw [hkb, (hpb c.1).1]
      exact c.2
    · have hkb : mergedBlock s b = b := if_neg c
      rw [hkb]
      exact a3
  have hstatus : ∀ y ∈ mergedList s b l1 l2,
      t2.status y = if y = mergedBlock s b then 0 else s.status y := by
    intro y hy
    by_cases c : y = mergedBlock s b
    · rw [if_pos c, c, b5]
      exact hkstat
    · rw [if_neg c, (b7 y hy c).2]
      exact (a6 y (hinrest y hy c)).2
  refine ⟨?_, ?_, ?_, ?_, ?_, ?_, ?_, by rw [b10, a9], by rw [b8, a7], by rw [b9, a8],
    by rw [b11, a10]⟩
  · rw [b8, a7, hml]
    exact b2
  · rw [hml]
    by_cases c : prevFree s b
    · rw [if_pos c]
      exact List.Pairwise.sublist (List.Sublist.append_left (List.Sublist.cons b hrest) l1) hsep
    · rw [if_neg c]
      have e : (l1 ++ [b]) ++ (if nextFree s b then l2.tail else l2) =
          l1 ++ b :: (if nextFree s b then l2.tail else l2) := by simp
      rw [e]
      exact hsep1
  · -- no two adjacent FREE blocks
    unfold NoAdjFree at hnf ⊢
    rw [List.map_append, List.map_cons, hst, noAdjZero_split] at hnf
    obtain ⟨hpre, hsuf⟩ := hnf
    have hsuf2 : noAdjZero (0 :: (if nextFree s b then l2.tail else l2).map s.status) := by
      by_cases c : nextFree s b
      · obtain ⟨l, e⟩ := hN c
        rw [if_pos c, e, List.tail_cons]
        rw [e, List.map_cons, c.2] at hsuf
        exact noAdjZero_tail 1 _ hsuf
      · rw [if_neg c]
        exact noAdjZero_cons_zero 1 _ hsuf (hN' c)
    by_cases c : prevFree s b
    · obtain ⟨l0, e⟩ := hP c
      have hkb : mergedBlock s b = s.prev b := if_pos c
      have hlist : mergedList s b l1 l2 =
          l0 ++ s.prev b :: (if nextFree s b then l2.tail else l2) := by
        rw [hml, if_pos c, e]
        simp
      have hsepm : Sep (l0 ++ s.prev b :: (if nextFree s b then l2.tail else l2)) := by
        have h0 : Sep (l1 ++ (if nextFree s b then l2.tail else l2)) :=
          List.Pairwise.sublist (List.Sublist.append_left (List.Sublist.cons b hrest) l1) hsep
        rw [e] at h0
        simpa using h0
      rw [hlist] at hstatus ⊢
      rw [hkb] at hstatus
      rw [status_map_split t2 s (s.prev b) l0 _ hsepm hstatus, noAdjZero_split]
      refine ⟨?_, hsuf2⟩
      have h1 := noAdjZero_init _ 1 hpre
      rw [e, List.map_append, List.map_cons, List.map_nil, c.2] at h1
      exact h1
    · have hkb : mergedBlock s b = b := if_neg c
      have hlist : mergedList s b l1 l2 =
          l1 ++ b :: (if nextFree s b then l2.tail else l2) := by
        rw [hml, if_neg c]
        simp
      rw [hlist] at hstatus ⊢
      rw [hkb] at hstatus
      rw [status_map_split t2 s b l1 _ hsep1 hstatus, noAdjZero_split]
      exact ⟨noAdjZero_snoc_zero _ 1 hpre (hP' c), hsuf2⟩
  · rw [hml]
    by_cases c : prevFree s b
    · have hkb : mergedBlock s b = s.prev b := if_pos c
      rw [if_pos c, hkb]
      exact List.mem_append_left _ (prev_mem s s.brk_head b l1 l2 hl c.1)
    · have hkb : mergedBlock s b = b := if_neg c
      rw [if_neg c, hkb]
      exact List.mem_append_left _ (List.mem_append_right _ (List.mem_singleton.mpr rfl))
  · rw [b5]
    exact hkstat
  · rw [b6, a4]
    unfold mergedSize
    by_cases c : prevFree s b
    · rw [if_pos (hpfe.mpr c), if_pos c, a5, (hpb c.1).2]
      omega
    · rw [if_neg (fun hc => c (hpfe.mp hc)), if_neg c]
      omega
  · intro y hy hyk
    have h1 := b7 y hy hyk
    have h2 := a6 y (hinrest y hy hyk)
    exact ⟨h1.1.trans h2.1, h1.2.trans h2.2⟩

/-- The allocated block at `1048616` of `sandwichState`, between two FREE
blocks, is released: the three blocks become one block of 120 bytes at
`1048576`. -/
theorem c17_witness :
    (Linked sandwichState 0 sandwichState.brk_head
        ([1048576] ++ 1048616 :: [1048656, 1048696, 1048736]) ∧
      Sep ([1048576] ++ 1048616 :: [1048656, 1048696, 1048736]) ∧
      NoAdjFree sandwichState ([1048576] ++ 1048616 :: [1048656, 1048696, 1048736]) ∧
      sandwichState.status 1048616 = 1 ∧ sandwichState.size 1048616 ≠ 0 ∧
      sizeSum sandwichState ([1048576] ++ 1048616 :: [1048656, 1048696, 1048736]) < W) ∧
    (mergedList sandwichState 1048616 [1048576] [1048656, 1048696, 1048736]
        = [1048576, 1048696, 1048736] ∧
      mergedBlock sandwichState 1048616 = 1048576 ∧ mergedSize sandwichState 1048616 = 120) ∧
    (Linked (os_free (1048616 + META_SIZE) sandwichState) 0
        (os_free (1048616 + META_SIZE) sandwichState).brk_head
        (mergedList sandwichState 1048616 [1048576] [1048656, 1048696, 1048736]) ∧
      Sep (mergedList sandwichState 1048616 [1048576] [1048656, 1048696, 1048736]) ∧
      NoAdjFree (os_free (1048616 + META_SIZE) sandwichState)
        (mergedList sandwichState 1048616 [1048576] [1048656, 1048696, 1048736]) ∧
      mergedBlock sandwichState 1048616 ∈
        mergedList sandwichState 1048616 [1048576] [1048656, 1048696, 1048736] ∧
      (os_free (1048616 + META_SIZE) sandwichState).status (mergedBlock sandwichState 1048616)
        = 0 ∧
      (os_free (1048616 + META_SIZE) sandwichState).size (mergedBlock sandwichState 1048616)
        = mergedSize sandwichState 1048616 ∧
      (∀ y ∈ mergedList sandwichState 1048616 [1048576] [1048656, 1048696, 1048736],
        y ≠ mergedBlock sandwichState 1048616 →
        (os_free (1048616 + META_SIZE) sandwichState).size y = sandwichState.size y ∧
        (os_free (1048616 + META_SIZE) sandwichState).status y = sandwichState.status y) ∧
      (os_free (1048616 + META_SIZE) sandwichState).brk = sandwichState.brk ∧
      (os_free (1048616 + META_SIZE) sandwichState).brk_head = sandwichState.brk_head ∧
      (os_free (1048616 + META_SIZE) sandwichState).map_head = sandwichState.map_head ∧
      (os_free (1048616 + META_SIZE) sandwichState).maps = sandwichState.maps) :=
  ⟨⟨by decide, by decide, by decide, by decide, by decide, by decide⟩,
    ⟨by decide, by decide, by decide⟩,
    c17_free_merges_neighbours sandwichState 1048616 [1048576] [1048656, 1048696, 1048736]
      (by decide) (by decide) (by decide) (by decide) (by decide) (by decide)⟩

/-- C18, at a failing input: in the reachable configuration `eightyConfig` the
client holds `1048608`, an allocated block of 80 bytes; for `os_realloc` to 8
bytes the new total is 40 and the leftover is exactly 40, and the call returns
the pointer with the state unchanged: the block keeps its 80 bytes and no
free block is inserted. -/
theorem c18_leftover_of_forty_is_not_split :
    Reachable eightyConfig ∧ 1048608 ∈ eightyConfig.live ∧
      eightyConfig.st.status (1048608 - META_SIZE) = 1 ∧
      eightyConfig.st.size (1048608 - META_SIZE) = 80 ∧
      align8 (8 + META_SIZE) = 40 ∧ 80 - 40 ≥ 40 ∧
      os_realloc 10 0 1048608 8 eightyConfig.st = some (1048608, eightyConfig.st) :=
  ⟨reachable_eightyConfig, by decide, by decide, by decide, by decide, by decide, by decide⟩

/-- C19: for a heap list `l` (the forward traversal from `brk_head`) and a size
`size`, `find_best_fit` returns a pointer `r` such that either `r` is `NULL`
and no block of `l` is FREE with `size` bytes or more, or `r` is a block of
`l` that is FREE with `size` bytes or more while no block before it in `l`
is; so the result is `NULL` exactly when no block of the list qualifies. The
function only reads the state: its result is a pointer. -/
theorem c19_find_best_fit_is_first_fit (s : State) (fuel size : Nat) (l : List Nat)
    (hl : Chain s s.brk_head l) (hfuel : l.length < fuel) :
    ∃ r, find_best_fit fuel size s = some r ∧
      ((r = 0 ∧ ∀ b ∈ l, ¬ (s.status b = 0 ∧ s.size b ≥ size)) ∨
        (∃ l1 l2, l = l1 ++ r :: l2 ∧ (s.status r = 0 ∧ s.size r ≥ size) ∧
          ∀ b ∈ l1, ¬ (s.status b = 0 ∧ s.size b ≥ size))) ∧
      (r = 0 ↔ ∀ b ∈ l, ¬ (s.status b = 0 ∧ s.size b ≥ size)) := by
  obtain ⟨r, hr, hcase⟩ := find_from_first s size l s.brk_head fuel hl hfuel
  have hnz := chain_ne_zero s l s.brk_head hl
  refine ⟨r, hr, ?_, ?_⟩
  · rcases hcase with ⟨e, hall⟩ | ⟨l1, l2, e, hfit, hall⟩
    · exact Or.inl ⟨e, fun b hb hc => hall b hb ⟨hc.2, hc.1⟩⟩
    · exact Or.inr ⟨l1, l2, e, ⟨hfit.2, hfit.1⟩, fun b hb hc => hall b hb ⟨hc.2, hc.1⟩⟩
  · rcases hcase with ⟨e, hall⟩ | ⟨l1, l2, e, hfit, _⟩
    · exact ⟨fun _ b hb hc => hall b hb ⟨hc.2, hc.1⟩, fun _ => e⟩
    · have hmem : r ∈ l := by rw [e]; simp
      constructor
      · intro e0
        exact absurd e0 (hnz r hmem)
      · intro hnone
        exact absurd ⟨hfit.2, hfit.1⟩ (hnone r hmem)

/-- The heap list of `growConfig`, searched for 40 bytes: the free block at
`1048616` is found, behind the allocated block at `1048576`. -/
theorem c19_witness :
    (Chain growConfig.st growConfig.st.brk_head [1048576, 1048616, 1048656, 1048696] ∧
      [1048576, 1048616, 1048656, 1048696].length < 5) ∧
    ∃ r, find_best_fit 5 40 growConfig.st = some r ∧
      ((r = 0 ∧ ∀ b ∈ [1048576, 1048616, 1048656, 1048696],
          ¬ (growConfig.st.status b = 0 ∧ growConfig.st.size b ≥ 40)) ∨
        (∃ l1 l2, [1048576, 1048616, 1048656, 1048696] = l1 ++ r :: l2 ∧
          (growConfig.st.status r = 0 ∧ growConfig.st.size r ≥ 40) ∧
          ∀ b ∈ l1, ¬ (growConfig.st.status b = 0 ∧ growConfig.st.size b ≥ 40))) ∧
      (r = 0 ↔ ∀ b ∈ [1048576, 1048616, 1048656, 1048696],
        ¬ (growConfig.st.status b = 0 ∧ growConfig.st.size b ≥ 40)) :=
  ⟨⟨by decide, by decide⟩,
    c19_find_best_fit_is_first_fit growConfig.st 5 40 [1048576, 1048616, 1048656, 1048696]
      (by decide) (by decide)⟩

/-- C20, at a failing input: in the reachable configuration `oneMapConfig` the
client resizes its mapped block to 8 bytes. `os_malloc(8)` hands out the block
at `1048576`, whose payload capacity is 8 bytes, and `os_realloc` copies
`min(200032, 40) = 40` bytes into it: the result is the state after
`memcpy(new_block, ptr, 40)` and `os_free(ptr)`, and the size field of the
header behind the new block, 131032 before the copy, reads 0 after it. -/
theorem c20_copy_overruns_new_block :
    Reachable oneMapConfig ∧ 1073741856 ∈ oneMapConfig.live ∧
      oneMapConfig.st.status (1073741856 - META_SIZE) = 2 ∧
      os_malloc 10 0 8 oneMapConfig.st = some (1048608, beforeCopyState) ∧
      beforeCopyState.size (1048608 - META_SIZE) - META_SIZE = 8 ∧
      beforeCopyState.size 1048616 = 131032 ∧
      os_realloc 10 0 1073741856 8 oneMapConfig.st
        = some (1048608, os_free 1073741856 (memcpy 1048608 1073741856 40 beforeCopyState)) ∧
      (os_free 1073741856 (memcpy 1048608 1073741856 40 beforeCopyState)).size 1048616 = 0 ∧
      8 < 40 :=
  ⟨reachable_oneMapConfig, by decide, by decide, by decide, by decide, by decide, by decide,
    by decide, by decide⟩

end OsMem
